import Mathlib

/-!
Verification development for the MooSelect cow-selector filter core
(`cow_selector_app.py`).  The filter language is embedded shallowly:

* text is `List Char` (Python `str`);
* a dataset (`Df`) is a column list plus a list of rows, each row an
  association list from column name to cell `Value`
  (number / text / boolean / missing, mirroring a pandas frame with
  `NaN` as `missing`);
* the regex dispatch of `parse_condition` is translated pattern by
  pattern into deterministic scanners (the patterns involved are
  backtracking-free except for two documented corner cases, which are
  reproduced explicitly);
* a raised Python exception (`ValueError` from `float`, `KeyError`
  from column access) is modelled as `none`;
* `evaluate_filter`'s recursion on substrings is realised with a fuel
  parameter (`evalFilterF`); the canonical entry point supplies fuel
  `length + 1`, which is proved sufficient.

Character classes follow the ASCII fragment of Python's `re` classes
(`\w` = alphanumeric or underscore, `\s` = the six ASCII spaces);
the source data and filter texts are ASCII.
-/

namespace CowSel

/-- Python `\s` (ASCII): space, tab, newline, carriage return,
vertical tab, form feed. -/
def isSpc (c : Char) : Bool :=
  c = ' ' || c = '\t' || c = '\n' || c = '\r' || c = '\x0b' || c = '\x0c'

/-- Python `\w` (ASCII fragment): letters, digits, underscore. -/
def isWordChar (c : Char) : Bool :=
  c.isAlphanum || c = '_'

/-- Character class `[\d\.]` of the range / comparison value groups. -/
def isNumChar (c : Char) : Bool :=
  c.isDigit || c = '.'

/-- Character class `[\d\., ]` of the list-shape value group. -/
def isListChar (c : Char) : Bool :=
  c.isDigit || c = '.' || c = ',' || c = ' '

/-- Python `str.strip()`: drop whitespace from both ends. -/
def trimChars (s : List Char) : List Char :=
  ((s.dropWhile isSpc).reverse.dropWhile isSpc).reverse

/-- Decimal digits of a natural number (most significant first). -/
def natDigits (n : ℕ) : List Char := Nat.toDigits 10 n

def digitsToNat (ds : List Char) : ℕ :=
  ds.foldl (fun a c => a * 10 + (c.toNat - 48)) 0

/-- Python `float(s)` on the strings reachable in this program:
optional surrounding whitespace, optional sign, decimal digits with at
most one dot (at least one digit), optional exponent part.  Returns
`none` where Python raises `ValueError`.  The special literals
`inf`/`nan` and underscore digit separators are not modelled (no
dataset or filter text in the claims uses them). -/
def pyFloat (s : List Char) : Option ℚ :=
  let t := trimChars s
  let neg : Bool := t.head? = some '-'
  let t1 := match t with
    | '+' :: r => r
    | '-' :: r => r
    | _ => t
  let ip := t1.takeWhile Char.isDigit
  let r2 := t1.dropWhile Char.isDigit
  let fp := match r2 with
    | '.' :: r => r.takeWhile Char.isDigit
    | _ => []
  let r3 := match r2 with
    | '.' :: r => r.dropWhile Char.isDigit
    | _ => r2
  if ip.isEmpty && fp.isEmpty then none
  else
    let base : ℤ := (digitsToNat ip * 10 ^ fp.length + digitsToNat fp : ℕ)
    let sbase : ℤ := if neg then -base else base
    match r3 with
    | [] => some (mkRat sbase (10 ^ fp.length))
    | c :: r =>
      if c = 'e' || c = 'E' then
        let eneg : Bool := r.head? = some '-'
        let r4 := match r with
          | '+' :: rr => rr
          | '-' :: rr => rr
          | _ => r
        let ed := r4.takeWhile Char.isDigit
        let r5 := r4.dropWhile Char.isDigit
        if ed.isEmpty || !r5.isEmpty then none
        else some (if eneg then mkRat sbase (10 ^ fp.length * 10 ^ digitsToNat ed)
          else mkRat (sbase * 10 ^ digitsToNat ed) (10 ^ fp.length))
      else none

/-- `[float(v.strip()) for v in vals.split(",")]`; `none` models the
`ValueError` raised when any item fails to parse. -/
def parseFloatList (vals : List Char) : Option (List ℚ) :=
  (vals.splitOn ',').mapM pyFloat

/-- A cell of the dataset: number (pandas numeric), text, boolean, or
missing (`NaN`). -/
inductive Value where
  | num (q : ℚ)
  | str (s : List Char)
  | bool (b : Bool)
  | missing
deriving DecidableEq

/-- Python / pandas `==` on cells: numbers compare numerically,
booleans equal the numbers 1/0 (Python `True == 1`), text compares as
text, `NaN` (missing) is equal to nothing, and values of unrelated
kinds are unequal. -/
def pyEqB : Value → Value → Bool
  | .num p, .num q => p == q
  | .num p, .bool b => p == (if b then 1 else 0)
  | .bool b, .num p => p == (if b then 1 else 0)
  | .bool a, .bool b => a == b
  | .str s, .str t => s == t
  | _, _ => false

/-- pandas `isna`. -/
def isNA : Value → Bool
  | .missing => true
  | _ => false

/-- `pd.to_numeric(·, errors='coerce')` on one cell: numbers stay,
booleans become 1/0, missing stays `NaN` (`none`), text is parsed as a
Python float. -/
def toNumeric : Value → Option ℚ
  | .num q => some q
  | .bool b => some (if b then 1 else 0)
  | .missing => none
  | .str s => pyFloat s

/-- The coerced cell: a number on success, `NaN` on failure. -/
def numCoerce (v : Value) : Value :=
  match toNumeric v with
  | some q => Value.num q
  | none => Value.missing

/-- Decimal string of an integer. -/
def intRepr (i : ℤ) : List Char :=
  if i < 0 then '-' :: natDigits i.natAbs else natDigits i.natAbs

/-- `astype(str)` of a numeric cell.  Integral values print without a
decimal point (int64 column) and exact decimal fractions print in
decimal; other denominators fall back to a fraction form (such values
do not occur in the datasets of interest, where all numerics are
decimal literals). -/
def numRepr (q : ℚ) : List Char :=
  if q.den = 1 then intRepr q.num
  else
    match (List.range 28).find? (fun k => (10 ^ k : ℕ) % q.den = 0) with
    | some k =>
      let n := q.num.natAbs * ((10 ^ k : ℕ) / q.den)
      let ipart := natDigits (n / 10 ^ k)
      let fdig := natDigits (n % 10 ^ k)
      let frac := List.replicate (k - fdig.length) '0' ++ fdig
      (if q.num < 0 then ['-'] else []) ++ ipart ++ '.' :: frac
    | none => intRepr q.num ++ '/' :: natDigits q.den

/-- `astype(str)` of a cell: `NaN` prints as `nan`, booleans as
`True`/`False`. -/
def pyStr : Value → List Char
  | .num q => numRepr q
  | .str s => s
  | .bool b => if b then "True".data else "False".data
  | .missing => "nan".data

abbrev ColName := List Char
abbrev Row := List (ColName × Value)

/-- The dataset: ordered rows over a fixed column set. -/
structure Df where
  columns : List ColName
  rows : List Row
deriving DecidableEq

def rowCount (df : Df) : ℕ := df.rows.length

/-- Cell access; every row of a well-formed frame binds every column,
and a stray lookup behaves as missing. -/
def getCell (r : Row) (c : ColName) : Value :=
  (r.lookup c).getD Value.missing

def setVal (r : Row) (c : ColName) (v : Value) : Row :=
  r.map (fun p => if p.1 = c then (p.1, v) else p)

/-- `df[col] = pd.to_numeric(df[col], errors='coerce')`. -/
def coerceCol (df : Df) (c : ColName) : Df :=
  ⟨df.columns, df.rows.map (fun r => setVal r c (numCoerce (getCell r c)))⟩

abbrev Mask := List Bool

def falseMask (df : Df) : Mask := List.replicate (rowCount df) false
def trueMask (df : Df) : Mask := List.replicate (rowCount df) true
def orMask (a b : Mask) : Mask := List.zipWith (· || ·) a b
def andMask (a b : Mask) : Mask := List.zipWith (· && ·) a b
def notMask (a : Mask) : Mask := a.map (!·)

/-- Row-wise mask from a cell predicate on one column. -/
def colMask (df : Df) (c : ColName) (p : Value → Bool) : Mask :=
  df.rows.map (fun r => p (getCell r c))

/-- `df[col].isin(val_list)`. -/
def isinMask (df : Df) (c : ColName) (vs : List ℚ) : Mask :=
  colMask df c (fun v => vs.any (fun q => pyEqB v (.num q)))

inductive CmpOp where
  | gt | lt | ge | le | ceq | cne
deriving DecidableEq

/-- Elementwise comparison with a scalar on a coerced column:
`NaN` compares false under everything except `!=`. -/
def cmpCell (o : CmpOp) (v : ℚ) : Value → Bool
  | .num q =>
    match o with
    | .gt => q > v
    | .lt => q < v
    | .ge => q ≥ v
    | .le => q ≤ v
    | .ceq => q == v
    | .cne => q != v
  | _ =>
    match o with
    | .cne => true
    | _ => false

/-- `df[col].astype(str) == val`. -/
def eqStrMask (df : Df) (c : ColName) (val : List Char) : Mask :=
  colMask df c (fun v => pyStr v == val)

/-- Literal-text matcher: consumes `lit` from the head of `s`. -/
def expectLit (lit s : List Char) : Option (List Char) :=
  if lit.isPrefixOf s then some (s.drop lit.length) else none

/-- The shared tail of the list-shape regexes
`(\w+)\s*OP\s*([\d\., ]+)` (OP is `!=` or `=`), matched as a prefix of
`s`, returning the column and value groups.  The scanner is greedy and
deterministic except in one place: when the greedy `\s*` leaves no
`[\d\., ]` character, the regex engine backtracks and, if the
whitespace run contains a space, hands exactly one space to the value
group (the space both is whitespace and belongs to the class; the last
space of the run is followed only by non-space characters, so the
group is that single space).  The resulting `" "` group makes the
subsequent `float` call raise. -/
def matchListPat (op : List Char) (s : List Char) : Option (List Char × List Char) :=
  let col := s.takeWhile isWordChar
  let r1 := s.dropWhile isWordChar
  if col.isEmpty then none
  else
    match expectLit op (r1.dropWhile isSpc) with
    | none => none
    | some r3 =>
      let w := r3.takeWhile isSpc
      let r4 := r3.dropWhile isSpc
      let g := r4.takeWhile isListChar
      if !g.isEmpty then some (col, g)
      else if w.contains ' ' then some (col, [' '])
      else none

/-- `([\d\.]+)\s*<=\s*(\w+)\s*<=\s*([\d\.]+)` matched as a prefix of
`s` (all groups greedy; no backtracking can succeed because the
classes of adjacent pieces are disjoint). -/
def matchRange (s : List Char) : Option (List Char × ColName × List Char) :=
  let g1 := s.takeWhile isNumChar
  let r1 := s.dropWhile isNumChar
  if g1.isEmpty then none
  else
    match expectLit ['<', '='] (r1.dropWhile isSpc) with
    | none => none
    | some r2 =>
      let col := (r2.dropWhile isSpc).takeWhile isWordChar
      let r3 := (r2.dropWhile isSpc).dropWhile isWordChar
      if col.isEmpty then none
      else
        match expectLit ['<', '='] (r3.dropWhile isSpc) with
        | none => none
        | some r4 =>
          let g2 := (r4.dropWhile isSpc).takeWhile isNumChar
          if g2.isEmpty then none else some (g1, col, g2)

def opLit : CmpOp → List Char
  | .ge => ['>', '=']
  | .le => ['<', '=']
  | .ceq => ['=']
  | .cne => ['!', '=']
  | .gt => ['>']
  | .lt => ['<']

/-- One alternative of the operator alternation: the literal, then
`\s*([\d\.]+)`. -/
def tryCmpOp (o : CmpOp) (r2 : List Char) : Option (List Char) :=
  match expectLit (opLit o) r2 with
  | none => none
  | some r3 =>
    let g := (r3.dropWhile isSpc).takeWhile isNumChar
    if g.isEmpty then none else some g

/-- The alternation order of the source regex `(>=|<=|=|!=|>|<)`;
alternatives are tried left to right and a later one is tried when the
value group fails after an earlier one (regex backtracking). -/
def cmpOrder : List CmpOp := [.ge, .le, .ceq, .cne, .gt, .lt]

/-- `(\w+)\s*(>=|<=|=|!=|>|<)\s*([\d\.]+)` matched as a prefix of `s`. -/
def matchCmp (s : List Char) : Option (ColName × CmpOp × List Char) :=
  let col := s.takeWhile isWordChar
  let r1 := s.dropWhile isWordChar
  if col.isEmpty then none
  else
    let r2 := r1.dropWhile isSpc
    match cmpOrder.findSome? (fun o => (tryCmpOp o r2).map (fun g => (o, g))) with
    | none => none
    | some og => some (col, og.1, og.2)

/-- `(\w+)\s*=\s*(.+)` matched as a prefix of `s`, with the source's
`.strip()` applied to the second group.  `.` does not match a newline;
when everything after the `=` is whitespace the engine backtracks the
greedy `\s*` and the group consists of whitespace only, which strips
to the empty string (this succeeds exactly when some non-newline
character follows the `=`). -/
def matchCatEq (s : List Char) : Option (ColName × List Char) :=
  let col := s.takeWhile isWordChar
  let r1 := s.dropWhile isWordChar
  if col.isEmpty then none
  else
    match expectLit ['='] (r1.dropWhile isSpc) with
    | none => none
    | some rem =>
      let w := rem.takeWhile isSpc
      let r4 := rem.dropWhile isSpc
      if !r4.isEmpty then some (col, trimChars (r4.takeWhile (fun c => c ≠ '\n')))
      else if w.any (fun c => c ≠ '\n') then some (col, [])
      else none

/-- `parse_condition(df, cond)`: the five regex shapes tried in source
order, each guarded by the column-existence check exactly where the
source places it (before value conversion in the list shapes, after it
in the range and comparison shapes).  `none` models a raised
`ValueError` from `float`. -/
def parseCondition (df : Df) (cond0 : List Char) : Option (Mask × Df) :=
  let cond := trimChars cond0
  match matchListPat ['!', '='] cond with
  | some cg =>
    if cg.1 ∈ df.columns then
      match parseFloatList cg.2 with
      | some vlist => some (notMask (isinMask df cg.1 vlist), df)
      | none => none
    else some (falseMask df, df)
  | none =>
  match matchListPat ['='] cond with
  | some cg =>
    if cg.1 ∈ df.columns then
      match parseFloatList cg.2 with
      | some vlist => some (isinMask df cg.1 vlist, df)
      | none => none
    else some (falseMask df, df)
  | none =>
  match matchRange cond with
  | some g =>
    match pyFloat g.1, pyFloat g.2.2 with
    | some v1, some v2 =>
      if g.2.1 ∈ df.columns then
        let df2 := coerceCol df g.2.1
        some (andMask (colMask df2 g.2.1 (cmpCell .ge v1)) (colMask df2 g.2.1 (cmpCell .le v2)), df2)
      else some (falseMask df, df)
    | _, _ => none
  | none =>
  match matchCmp cond with
  | some g =>
    match pyFloat g.2.2 with
    | some v =>
      if g.1 ∈ df.columns then
        let df2 := coerceCol df g.1
        some (colMask df2 g.1 (cmpCell g.2.1 v), df2)
      else some (falseMask df, df)
    | none => none
  | none =>
  match matchCatEq cond with
  | some g =>
    if g.1 ∈ df.columns then some (eqStrMask df g.1 g.2, df)
    else some (falseMask df, df)
  | none => some (falseMask df, df)

/-- Word-boundary test for the position before a keyword: start of
string, or a non-word character. -/
def prevOk : Option Char → Bool
  | none => true
  | some c => !isWordChar c

/-- Case-insensitive literal match returning the remainder. -/
def matchCI : List Char → List Char → Option (List Char)
  | [], s => some s
  | _ :: _, [] => none
  | w :: ws, c :: cs => if c.toLower = w.toLower then matchCI ws cs else none

/-- `\bWORD\b` (case-insensitive) anchored at the head of `s`, where
`prev` is the character just before `s` in the scanned text. -/
def wordAt (w : List Char) (prev : Option Char) (s : List Char) : Option (List Char) :=
  if prevOk prev then
    match matchCI w s with
    | none => none
    | some rest =>
      match rest.head? with
      | none => some rest
      | some c => if isWordChar c then none else some rest
  else none

/-- First whole-word occurrence of `w` in `s`, scanning left to right;
returns the text before the occurrence and the text after it. -/
def findWord (w : List Char) : Option Char → List Char → Option (List Char × List Char)
  | _, [] => none
  | prev, c :: t =>
    match wordAt w prev (c :: t) with
    | some rest => some ([], rest)
    | none =>
      match findWord w (some c) t with
      | none => none
      | some pq => some (c :: pq.1, pq.2)

/-- `re.split(r'\bWORD\b', s, flags=re.IGNORECASE)`, fuelled for
structural recursion.  After a successful occurrence the next scan
starts just past it; the character before that position is the last
letter of the keyword, and since a successful occurrence is followed
by a non-word character (or the end), no new occurrence can begin at
that very position, so passing the keyword's own last letter as `prev`
is exact. -/
def splitWordF (w : List Char) : ℕ → Option Char → List Char → List (List Char)
  | 0, _, s => [s]
  | n + 1, prev, s =>
    match findWord w prev s with
    | none => [s]
    | some pq => pq.1 :: splitWordF w n w.getLast? pq.2

def splitWord (w : List Char) (prev : Option Char) (s : List Char) : List (List Char) :=
  splitWordF w (s.length + 1) prev s

def orWord : List Char := ['O', 'R']
def andWord : List Char := ['A', 'N', 'D']

/-- Lines 115-117 of the source: strip the expression, and when it
both starts with `(` and ends with `)` strip exactly one outer layer
and strip again. -/
def effExpr (expr : List Char) : List Char :=
  if (trimChars expr).head? = some '(' && (trimChars expr).getLast? = some ')' then
    trimChars (((trimChars expr).drop 1).dropLast)
  else trimChars expr

/-- `evaluate_filter(df, expr)` with explicit fuel: strip, strip one
outer parenthesis pair, split on word `OR` (combining the recursive
results with `|` from a false seed, threading the working frame left
to right), else split on word `AND` (combining with `&` from a true
seed), else delegate to `parse_condition`. -/
def evalFilterF (n : ℕ) : Df → List Char → Option (Mask × Df) :=
  Nat.rec (motive := fun _ => Df → List Char → Option (Mask × Df))
    (fun _ _ => none)
    (fun _ prev df expr =>
      if 2 ≤ (splitWord orWord none (effExpr expr)).length then
        (splitWord orWord none (effExpr expr)).foldl (fun acc p =>
          match acc with
          | none => none
          | some md =>
            match prev md.2 p with
            | none => none
            | some md2 => some (orMask md.1 md2.1, md2.2)) (some (falseMask df, df))
      else if 2 ≤ (splitWord andWord none (effExpr expr)).length then
        (splitWord andWord none (effExpr expr)).foldl (fun acc p =>
          match acc with
          | none => none
          | some md =>
            match prev md.2 p with
            | none => none
            | some md2 => some (andMask md.1 md2.1, md2.2)) (some (trueMask df, df))
      else parseCondition df (effExpr expr)) n

theorem evalFilterF_zero (df : Df) (e : List Char) : evalFilterF 0 df e = none := rfl

theorem evalFilterF_succ (n : ℕ) (df : Df) (e : List Char) :
    evalFilterF (n + 1) df e =
      (if 2 ≤ (splitWord orWord none (effExpr e)).length then
        (splitWord orWord none (effExpr e)).foldl (fun acc p =>
          match acc with
          | none => none
          | some md =>
            match evalFilterF n md.2 p with
            | none => none
            | some md2 => some (orMask md.1 md2.1, md2.2)) (some (falseMask df, df))
      else if 2 ≤ (splitWord andWord none (effExpr e)).length then
        (splitWord andWord none (effExpr e)).foldl (fun acc p =>
          match acc with
          | none => none
          | some md =>
            match evalFilterF n md.2 p with
            | none => none
            | some md2 => some (andMask md.1 md2.1, md2.2)) (some (trueMask df, df))
      else parseCondition df (effExpr e)) := rfl

/-- Canonical fuel: one more than the text length (recursion always
descends to strictly shorter text). -/
def evalFilter (df : Df) (e : List Char) : Option (Mask × Df) :=
  evalFilterF (e.length + 1) df e

def evaluate_filter (df : Df) (s : String) : Option (Mask × Df) :=
  evalFilter df s.data

def parse_condition (df : Df) (s : String) : Option (Mask × Df) :=
  parseCondition df s.data

/-- The per-column mask of `apply_bool_filters`: a false seed, `|`-ed
with `df[col] == True` when the True box is ticked, then `|`-ed with
`df[col].isna() | (df[col] == "")` when the Blank box is ticked. -/
def colBoolMask (df : Df) (c : ColName) (incTrue incBlank : Bool) : Mask :=
  let m0 := falseMask df
  let m1 := if incTrue then orMask m0 (colMask df c (fun v => pyEqB v (.bool true))) else m0
  if incBlank then orMask (orMask m1 (colMask df c isNA)) (colMask df c (fun v => pyEqB v (.str []))) else m1

def applyBoolFiltersGo (df : Df) : Mask → List (ColName × Bool × Bool) → Option Mask
  | m, [] => some m
  | m, f :: t =>
    if f.2.1 || f.2.2 then
      if f.1 ∈ df.columns then
        applyBoolFiltersGo df (andMask m (colBoolMask df f.1 f.2.1 f.2.2)) t
      else none
    else applyBoolFiltersGo df (andMask m (colBoolMask df f.1 f.2.1 f.2.2)) t

/-- `apply_bool_filters(df, filters)`: an all-true seed `&`-ed with
each column's mask in turn.  `df[col]` is only evaluated under a
ticked box, so a filter naming a column absent from the frame raises
`KeyError` (modelled as `none`) exactly when one of its two boxes is
ticked; with both boxes unticked the sub-mask stays all-false and no
column access happens. -/
def applyBoolFilters (df : Df) (fs : List (ColName × Bool × Bool)) : Option Mask :=
  applyBoolFiltersGo df (trueMask df) fs

/-- `df[mask]`: keep the rows where the mask is true, in order. -/
def selectRows (df : Df) (m : Mask) : Df :=
  ⟨df.columns, ((df.rows.zip m).filter (fun p => p.2)).map (fun p => p.1)⟩

/-- The Apply branch of the app: work on a copy of the upload, run the
expression filter when the text is non-blank, then run the boolean
filters when boolean-like columns are present (the session's filter
dictionary has exactly those columns as keys, so that guard is the
filter list being non-empty). -/
def applyFilters (df : Df) (filterInput : List Char) (boolFilters : List (ColName × Bool × Bool)) : Option Df :=
  let step1 :=
    if (trimChars filterInput).isEmpty then some df
    else
      match evalFilter df filterInput with
      | none => none
      | some md => some (selectRows md.2 md.1)
  match step1 with
  | none => none
  | some fdf =>
    if boolFilters.isEmpty then some fdf
    else
      match applyBoolFilters fdf boolFilters with
      | none => none
      | some bm => some (selectRows fdf bm)

def apply_filters (df : Df) (s : String) (bf : List (ColName × Bool × Bool)) : Option Df :=
  applyFilters df s.data bf

end CowSel

namespace CowSel

/-! ### Basic facts about masks, cells and the working frame -/

theorem length_falseMask (df : Df) : (falseMask df).length = rowCount df := by
  simp [falseMask]

theorem length_trueMask (df : Df) : (trueMask df).length = rowCount df := by
  simp [trueMask]

theorem length_orMask (a b : Mask) : (orMask a b).length = min a.length b.length := by
  simp [orMask]

theorem length_andMask (a b : Mask) : (andMask a b).length = min a.length b.length := by
  simp [andMask]

theorem length_notMask (a : Mask) : (notMask a).length = a.length := by
  simp [notMask]

theorem length_colMask (df : Df) (c : ColName) (p : Value → Bool) :
    (colMask df c p).length = rowCount df := by
  simp [colMask, rowCount]

theorem length_isinMask (df : Df) (c : ColName) (vs : List ℚ) :
    (isinMask df c vs).length = rowCount df := by
  simp [isinMask, length_colMask]

theorem length_eqStrMask (df : Df) (c : ColName) (v : List Char) :
    (eqStrMask df c v).length = rowCount df := by
  simp [eqStrMask, length_colMask]

theorem rowCount_coerceCol (df : Df) (c : ColName) :
    rowCount (coerceCol df c) = rowCount df := by
  simp [coerceCol, rowCount]

theorem columns_coerceCol (df : Df) (c : ColName) :
    (coerceCol df c).columns = df.columns := rfl

theorem getD_zipWith (f : Bool → Bool → Bool) :
    ∀ (a b : Mask) (i : ℕ), i < a.length → i < b.length →
      (List.zipWith f a b).getD i false = f (a.getD i false) (b.getD i false) := by
  intro a
  induction a with
  | nil => intro b i h _; simp at h
  | cons x xs ih =>
    intro b i h1 h2
    cases b with
    | nil => simp at h2
    | cons y ys =>
      cases i with
      | zero => simp
      | succ j =>
        simp only [List.zipWith, List.getD_cons_succ]
        exact ih ys j (by simpa using h1) (by simpa using h2)

theorem getD_map (f : Row → Bool) :
    ∀ (l : List Row) (i : ℕ), i < l.length →
      (l.map f).getD i false = f (l.getD i []) := by
  intro l
  induction l with
  | nil => intro i h; simp at h
  | cons x xs ih =>
    intro i h
    cases i with
    | zero => simp
    | succ j => simpa using ih j (by simpa using h)

theorem colMask_getD (df : Df) (c : ColName) (p : Value → Bool) (i : ℕ)
    (h : i < rowCount df) :
    (colMask df c p).getD i false = p (getCell (df.rows.getD i []) c) := by
  simpa [colMask] using getD_map (fun r => p (getCell r c)) df.rows i h

theorem getD_notMask (a : Mask) (i : ℕ) (h : i < a.length) :
    (notMask a).getD i false = !(a.getD i false) := by
  induction a generalizing i with
  | nil => simp at h
  | cons x xs ih =>
    cases i with
    | zero => simp [notMask]
    | succ j => simpa [notMask] using ih j (by simpa using h)

theorem setVal_cons (k : ColName) (x : Value) (t : Row) (c : ColName) (v : Value) :
    setVal ((k, x) :: t) c v = (if k = c then (k, v) else (k, x)) :: setVal t c v := by
  simp only [setVal, List.map_cons]

theorem getCell_setVal_ne (r : Row) (c c' : ColName) (v : Value) (h : c' ≠ c) :
    getCell (setVal r c v) c' = getCell r c' := by
  induction r with
  | nil => rfl
  | cons p t ih =>
    obtain ⟨k, x⟩ := p
    rw [setVal_cons]
    by_cases hk : k = c
    · rw [if_pos hk]
      subst hk
      have h2 : (c' == k) = false := by simpa using h
      simp only [getCell, List.lookup, h2] at ih ⊢
      exact ih
    · rw [if_neg hk]
      cases h2 : c' == k with
      | true => simp only [getCell, List.lookup, h2]
      | false =>
        simp only [getCell, List.lookup, h2] at ih ⊢
        exact ih

theorem getCell_setVal_self (r : Row) (c : ColName) :
    getCell (setVal r c (numCoerce (getCell r c))) c = numCoerce (getCell r c) := by
  induction r with
  | nil => rfl
  | cons p t ih =>
    obtain ⟨k, x⟩ := p
    rw [setVal_cons]
    by_cases hk : k = c
    · rw [if_pos hk]
      subst hk
      simp only [getCell, List.lookup, beq_self_eq_true, Option.getD_some]
    · rw [if_neg hk]
      have h2 : (c == k) = false := by
        simp only [beq_eq_false_iff_ne]
        exact fun hc => hk hc.symm
      simp only [getCell, List.lookup, h2] at ih ⊢
      exact ih

theorem numCoerce_idem (v : Value) : numCoerce (numCoerce v) = numCoerce v := by
  cases v with
  | num q => rfl
  | bool b => cases b <;> rfl
  | missing => rfl
  | str s => cases h : pyFloat s with
    | none => simp [numCoerce, toNumeric, h]
    | some q => simp [numCoerce, toNumeric, h]

/-- The values of one column, in row order. -/
def colVals (df : Df) (c : ColName) : List Value :=
  df.rows.map (fun r => getCell r c)

/-- How an evaluation step may change the working frame: same columns,
same row count, and every column either untouched or numerically
coerced as a whole. -/
def dfStep (df df' : Df) : Prop :=
  df'.columns = df.columns ∧ df'.rows.length = df.rows.length ∧
    ∀ c, colVals df' c = colVals df c ∨ colVals df' c = (colVals df c).map numCoerce

theorem dfStep_refl (df : Df) : dfStep df df :=
  ⟨rfl, rfl, fun _ => Or.inl rfl⟩

theorem dfStep_trans {df1 df2 df3 : Df} (h1 : dfStep df1 df2) (h2 : dfStep df2 df3) :
    dfStep df1 df3 := by
  refine ⟨h2.1.trans h1.1, h2.2.1.trans h1.2.1, fun c => ?_⟩
  rcases h2.2.2 c with h | h <;> rcases h1.2.2 c with h' | h'
  · exact Or.inl (h.trans h')
  · exact Or.inr (h.trans h')
  · exact Or.inr (by rw [h, h'])
  · refine Or.inr ?_
    rw [h, h', List.map_map]
    exact List.map_congr_left (fun v _ => numCoerce_idem v)

theorem dfStep_coerceCol (df : Df) (c : ColName) : dfStep df (coerceCol df c) := by
  refine ⟨rfl, by simp [coerceCol], fun c' => ?_⟩
  by_cases h : c' = c
  · subst h
    refine Or.inr ?_
    simp only [colVals, coerceCol, List.map_map]
    exact List.map_congr_left (fun r _ => getCell_setVal_self r c')
  · refine Or.inl ?_
    simp only [colVals, coerceCol, List.map_map]
    exact List.map_congr_left (fun r _ => getCell_setVal_ne r c c' _ h)

theorem dfStep_rowCount {df df' : Df} (h : dfStep df df') : rowCount df' = rowCount df :=
  h.2.1

end CowSel

namespace CowSel

/-! ### Generic fold helpers -/

theorem foldl_pres {α β : Type _} (P : β → Prop) (f : β → α → β) :
    ∀ (l : List α) (b : β), P b → (∀ b' a, a ∈ l → P b' → P (f b' a)) → P (l.foldl f b) := by
  intro l
  induction l with
  | nil => intro b hb _; exact hb
  | cons a t ih =>
    intro b hb hstep
    exact ih (f b a) (hstep b a (by simp) hb)
      (fun b' x hx hb' => hstep b' x (by simp [hx]) hb')

theorem foldl_funcongr {α β : Type _} (f g : β → α → β) :
    ∀ (l : List α) (b : β), (∀ b' a, a ∈ l → f b' a = g b' a) → l.foldl f b = l.foldl g b := by
  intro l
  induction l with
  | nil => intro b _; rfl
  | cons a t ih =>
    intro b hfg
    rw [List.foldl_cons, List.foldl_cons, hfg b a (by simp)]
    exact ih _ (fun b' x hx => hfg b' x (by simp [hx]))

/-! ### Lengths through the word scanner -/

theorem matchCI_length : ∀ (w s r : List Char), matchCI w s = some r → s.length = w.length + r.length := by
  intro w
  induction w with
  | nil =>
    intro s r h
    simp only [matchCI, Option.some.injEq] at h
    subst h; simp
  | cons a ws ih =>
    intro s r h
    cases s with
    | nil => simp [matchCI] at h
    | cons c cs =>
      simp only [matchCI] at h
      split at h
      · have := ih cs r h
        simp [this]; omega
      · exact absurd h (by simp)

theorem wordAt_length (w : List Char) (prev : Option Char) (s r : List Char)
    (h : wordAt w prev s = some r) : s.length = w.length + r.length := by
  unfold wordAt at h
  split at h
  · cases hm : matchCI w s with
    | none =>
      simp only [hm] at h
      exact absurd h (by simp)
    | some rest =>
      simp only [hm] at h
      have hlen := matchCI_length w s rest hm
      cases hh : rest.head? with
      | none =>
        simp only [hh, Option.some.injEq] at h
        subst h; exact hlen
      | some c =>
        simp only [hh] at h
        split at h
        · exact absurd h (by simp)
        · simp only [Option.some.injEq] at h
          subst h; exact hlen
  · exact absurd h (by simp)

theorem findWord_length : ∀ (s : List Char) (w : List Char) (prev : Option Char) (p q : List Char),
    findWord w prev s = some (p, q) → s.length = p.length + w.length + q.length := by
  intro s
  induction s with
  | nil => intro w prev p q h; simp [findWord] at h
  | cons c t ih =>
    intro w prev p q h
    simp only [findWord] at h
    cases hw : wordAt w prev (c :: t) with
    | some rest =>
      rw [hw] at h
      simp only [Option.some.injEq, Prod.mk.injEq] at h
      obtain ⟨rfl, rfl⟩ := h
      simpa using wordAt_length w prev (c :: t) rest hw
    | none =>
      rw [hw] at h
      cases hf : findWord w (some c) t with
      | none => rw [hf] at h; exact absurd h (by simp)
      | some pq =>
        rw [hf] at h
        simp only [Option.some.injEq, Prod.mk.injEq] at h
        obtain ⟨rfl, rfl⟩ := h
        have := ih w (some c) pq.1 pq.2 hf
        simp [this]; omega

theorem splitWordF_mem_length (w : List Char) :
    ∀ (n : ℕ) (prev : Option Char) (s p : List Char), p ∈ splitWordF w n prev s → p.length ≤ s.length := by
  intro n
  induction n with
  | zero =>
    intro prev s p h
    simp only [splitWordF, List.mem_singleton] at h
    subst h; exact le_refl _
  | succ n ih =>
    intro prev s p h
    simp only [splitWordF] at h
    cases hf : findWord w prev s with
    | none =>
      rw [hf] at h
      simp only [List.mem_singleton] at h
      subst h; exact le_refl _
    | some pq =>
      rw [hf] at h
      have hlen := findWord_length s w prev pq.1 pq.2 hf
      rcases List.mem_cons.1 h with h1 | h1
      · subst h1; omega
      · have := ih w.getLast? pq.2 p h1
        omega

theorem splitWord_mem_length (w : List Char) (prev : Option Char) (s p : List Char)
    (h : p ∈ splitWord w prev s) : p.length ≤ s.length :=
  splitWordF_mem_length w _ prev s p h

theorem splitWord_parts_small (w : List Char) (prev : Option Char) (s : List Char)
    (h2 : 2 ≤ (splitWord w prev s).length) :
    ∀ p ∈ splitWord w prev s, p.length + w.length ≤ s.length := by
  intro p hp
  unfold splitWord splitWordF at h2 hp
  cases hf : findWord w prev s with
  | none => rw [hf] at h2; simp at h2
  | some pq =>
    rw [hf] at hp
    have hlen := findWord_length s w prev pq.1 pq.2 hf
    rcases List.mem_cons.1 hp with h1 | h1
    · subst h1; omega
    · have := splitWordF_mem_length w _ w.getLast? pq.2 p h1
      omega

theorem dropWhile_len_le (p : Char → Bool) : ∀ s : List Char, (s.dropWhile p).length ≤ s.length := by
  intro s
  induction s with
  | nil => simp
  | cons c t ih =>
    simp only [List.dropWhile]
    cases hpc : p c with
    | true => exact le_trans ih (by simp)
    | false => simp

theorem length_trimChars_le (s : List Char) : (trimChars s).length ≤ s.length := by
  unfold trimChars
  calc ((s.dropWhile isSpc).reverse.dropWhile isSpc).reverse.length
      = ((s.dropWhile isSpc).reverse.dropWhile isSpc).length := by simp
    _ ≤ (s.dropWhile isSpc).reverse.length := dropWhile_len_le _ _
    _ = (s.dropWhile isSpc).length := by simp
    _ ≤ s.length := dropWhile_len_le _ _

theorem length_effExpr_le (s : List Char) : (effExpr s).length ≤ s.length := by
  unfold effExpr
  have h1 := length_trimChars_le s
  split
  · have h2 := length_trimChars_le (((trimChars s).drop 1).dropLast)
    have h3 : (((trimChars s).drop 1).dropLast).length ≤ (trimChars s).length := by
      simp only [List.length_dropLast, List.length_drop]
      omega
    omega
  · exact h1

/-! ### Fuel does not matter once it exceeds the text length -/

theorem evalFilterF_succ_congr (n m : ℕ) (df : Df) (expr : List Char)
    (h : ∀ (d : Df) (p : List Char), p.length + 2 ≤ expr.length →
      evalFilterF n d p = evalFilterF m d p) :
    evalFilterF (n + 1) df expr = evalFilterF (m + 1) df expr := by
  rw [evalFilterF_succ, evalFilterF_succ]
  have horlen : orWord.length = 2 := rfl
  have handlen : andWord.length = 3 := rfl
  by_cases h2 : 2 ≤ (splitWord orWord none (effExpr expr)).length
  · rw [if_pos h2, if_pos h2]
    refine foldl_funcongr _ _ _ _ (fun acc p hp => ?_)
    cases acc with
    | none => rfl
    | some md =>
      have hsmall := splitWord_parts_small orWord none (effExpr expr) h2 p hp
      have hb : p.length + 2 ≤ expr.length := by
        have := length_effExpr_le expr
        omega
      simp only [h md.2 p hb]
  · rw [if_neg h2, if_neg h2]
    by_cases h3 : 2 ≤ (splitWord andWord none (effExpr expr)).length
    · rw [if_pos h3, if_pos h3]
      refine foldl_funcongr _ _ _ _ (fun acc p hp => ?_)
      cases acc with
      | none => rfl
      | some md =>
        have hsmall := splitWord_parts_small andWord none (effExpr expr) h3 p hp
        have hb : p.length + 2 ≤ expr.length := by
          have := length_effExpr_le expr
          omega
        simp only [h md.2 p hb]
    · rw [if_neg h3, if_neg h3]

theorem evalFilterF_fuel : ∀ (n m : ℕ) (df : Df) (e : List Char),
    e.length < n → e.length < m → evalFilterF n df e = evalFilterF m df e := by
  intro n
  induction n with
  | zero => intro m df e h _; omega
  | succ n ih =>
    intro m df e hn hm
    cases m with
    | zero => omega
    | succ m' =>
      refine evalFilterF_succ_congr n m' df e (fun d p hp => ?_)
      exact ih m' d p (by omega) (by omega)

theorem evalFilterF_eq_evalFilter (n : ℕ) (df : Df) (e : List Char) (h : e.length < n) :
    evalFilterF n df e = evalFilter df e :=
  evalFilterF_fuel n (e.length + 1) df e h (by omega)

end CowSel

namespace CowSel

/-! ### Invariants of the condition matcher and the evaluator -/

theorem parseCondition_inv (df : Df) (c0 : List Char) (m : Mask) (df' : Df)
    (h : parseCondition df c0 = some (m, df')) :
    m.length = rowCount df ∧
      (df' = df ∨ ∃ col, col ∈ df.columns ∧ df' = coerceCol df col) := by
  simp only [parseCondition] at h
  repeat' split at h
  all_goals try exact Option.noConfusion h
  all_goals
    simp only [Option.some.injEq, Prod.mk.injEq] at h
  all_goals obtain ⟨rfl, rfl⟩ := h
  all_goals
    first
    | exact ⟨by simp [length_notMask, length_isinMask, length_falseMask, length_eqStrMask,
        length_andMask, length_colMask, rowCount_coerceCol], Or.inl rfl⟩
    | exact ⟨by simp [length_andMask, length_colMask, rowCount_coerceCol], Or.inr ⟨_, ‹_›, rfl⟩⟩

theorem parseCondition_dfStep (df : Df) (c0 : List Char) (m : Mask) (df' : Df)
    (h : parseCondition df c0 = some (m, df')) : dfStep df df' := by
  rcases (parseCondition_inv df c0 m df' h).2 with rfl | ⟨col, _, rfl⟩
  · exact dfStep_refl _
  · exact dfStep_coerceCol df col

theorem evalFilterF_inv : ∀ (n : ℕ) (df : Df) (e : List Char) (m : Mask) (df' : Df),
    evalFilterF n df e = some (m, df') → m.length = rowCount df ∧ dfStep df df' := by
  intro n
  induction n with
  | zero => intro df e m df' h; rw [evalFilterF_zero] at h; exact absurd h (by simp)
  | succ n ih =>
    intro df e m df' h
    rw [evalFilterF_succ] at h
    by_cases h2 : 2 ≤ (splitWord orWord none (effExpr e)).length
    · rw [if_pos h2] at h
      refine foldl_pres
        (fun acc : Option (Mask × Df) =>
          ∀ md : Mask × Df, acc = some md → md.1.length = rowCount df ∧ dfStep df md.2)
        _ (splitWord orWord none (effExpr e)) (some (falseMask df, df))
        (fun md hmd => by
          simp only [Option.some.injEq] at hmd
          subst hmd
          exact ⟨length_falseMask df, dfStep_refl df⟩)
        (fun acc p _ hacc md hmd => by
          cases acc with
          | none => simp at hmd
          | some md0 =>
            cases hev : evalFilterF n md0.2 p with
            | none => simp [hev] at hmd
            | some md2 =>
              simp only [hev, Option.some.injEq] at hmd
              subst hmd
              obtain ⟨hl0, hs0⟩ := hacc md0 rfl
              obtain ⟨hl2, hs2⟩ := ih md0.2 p md2.1 md2.2 (by simpa using hev)
              refine ⟨?_, dfStep_trans hs0 hs2⟩
              simp only [length_orMask, hl0, hl2]
              rw [dfStep_rowCount hs0]
              simp) (m, df') h
    · rw [if_neg h2] at h
      by_cases h3 : 2 ≤ (splitWord andWord none (effExpr e)).length
      · rw [if_pos h3] at h
        refine foldl_pres
          (fun acc : Option (Mask × Df) =>
            ∀ md : Mask × Df, acc = some md → md.1.length = rowCount df ∧ dfStep df md.2)
          _ (splitWord andWord none (effExpr e)) (some (trueMask df, df))
          (fun md hmd => by
            simp only [Option.some.injEq] at hmd
            subst hmd
            exact ⟨length_trueMask df, dfStep_refl df⟩)
          (fun acc p _ hacc md hmd => by
            cases acc with
            | none => simp at hmd
            | some md0 =>
              cases hev : evalFilterF n md0.2 p with
              | none => simp [hev] at hmd
              | some md2 =>
                simp only [hev, Option.some.injEq] at hmd
                subst hmd
                obtain ⟨hl0, hs0⟩ := hacc md0 rfl
                obtain ⟨hl2, hs2⟩ := ih md0.2 p md2.1 md2.2 (by simpa using hev)
                refine ⟨?_, dfStep_trans hs0 hs2⟩
                simp only [length_andMask, hl0, hl2]
                rw [dfStep_rowCount hs0]
                simp) (m, df') h
      · rw [if_neg h3] at h
        have hpc := parseCondition_inv df (effExpr e) m df' h
        refine ⟨hpc.1, ?_⟩
        rcases hpc.2 with rfl | ⟨col, _, rfl⟩
        · exact dfStep_refl _
        · exact dfStep_coerceCol df col

theorem evalFilter_inv (df : Df) (e : List Char) (m : Mask) (df' : Df)
    (h : evalFilter df e = some (m, df')) : m.length = rowCount df ∧ dfStep df df' :=
  evalFilterF_inv (e.length + 1) df e m df' h

theorem length_colBoolMask (df : Df) (c : ColName) (it ib : Bool) :
    (colBoolMask df c it ib).length = rowCount df := by
  unfold colBoolMask
  cases it <;> cases ib <;>
    simp [length_orMask, length_falseMask, length_colMask]

theorem applyBoolFiltersGo_length (df : Df) :
    ∀ (fs : List (ColName × Bool × Bool)) (m0 m : Mask),
      m0.length = rowCount df → applyBoolFiltersGo df m0 fs = some m →
      m.length = rowCount df := by
  intro fs
  induction fs with
  | nil =>
    intro m0 m h0 h
    simp only [applyBoolFiltersGo, Option.some.injEq] at h
    subst h; exact h0
  | cons f t ih =>
    intro m0 m h0 h
    have h0' : (andMask m0 (colBoolMask df f.1 f.2.1 f.2.2)).length = rowCount df := by
      simp [length_andMask, h0, length_colBoolMask]
    simp only [applyBoolFiltersGo] at h
    split at h
    · split at h
      · exact ih _ _ h0' h
      · exact Option.noConfusion h
    · exact ih _ _ h0' h

theorem applyBoolFilters_length (df : Df) (fs : List (ColName × Bool × Bool)) (m : Mask)
    (h : applyBoolFilters df fs = some m) : m.length = rowCount df :=
  applyBoolFiltersGo_length df fs (trueMask df) m (length_trueMask df) h

end CowSel

namespace CowSel

/-! ### Pointwise mask lemmas -/

theorem getD_replicate (b d : Bool) : ∀ (n i : ℕ), i < n → (List.replicate n b).getD i d = b := by
  intro n
  induction n with
  | zero => intro i h; omega
  | succ k ih =>
    intro i h
    cases i with
    | zero => simp
    | succ j => simpa [List.replicate_succ] using ih j (by omega)

theorem getD_oob {α : Type _} (d : α) : ∀ (l : List α) (i : ℕ), l.length ≤ i → l.getD i d = d := by
  intro l
  induction l with
  | nil => intro i _; cases i <;> rfl
  | cons x t ih =>
    intro i h
    cases i with
    | zero => simp at h
    | succ j => simpa using ih j (by simpa using h)

theorem orMask_getD (a b : Mask) (i : ℕ) (h1 : i < a.length) (h2 : i < b.length) :
    (orMask a b).getD i false = (a.getD i false || b.getD i false) :=
  getD_zipWith _ a b i h1 h2

theorem andMask_getD (a b : Mask) (i : ℕ) (h1 : i < a.length) (h2 : i < b.length) :
    (andMask a b).getD i false = (a.getD i false && b.getD i false) :=
  getD_zipWith _ a b i h1 h2

theorem getD_map_row (f : Row → Row) : ∀ (l : List Row) (i : ℕ), i < l.length →
    (l.map f).getD i [] = f (l.getD i []) := by
  intro l
  induction l with
  | nil => intro i h; simp at h
  | cons x t ih =>
    intro i h
    cases i with
    | zero => simp
    | succ j => simpa using ih j (by simpa using h)

/-- The cell of the coerced working frame is the coercion of the
original cell. -/
theorem coerceCol_cell (df : Df) (c : ColName) (i : ℕ) (h : i < rowCount df) :
    getCell ((coerceCol df c).rows.getD i []) c =
      numCoerce (getCell (df.rows.getD i []) c) := by
  unfold coerceCol
  rw [getD_map_row _ df.rows i h]
  exact getCell_setVal_self _ c

/-- A cell that fails numeric coercion is a missing value or
unparsable text, hence unequal (in the pandas sense) to every number. -/
theorem pyEqB_num_of_toNumeric_none (v : Value) (q : ℚ)
    (h : toNumeric v = none) : pyEqB v (.num q) = false := by
  cases v with
  | num p => simp [toNumeric] at h
  | bool b => simp [toNumeric] at h
  | missing => rfl
  | str s => rfl

theorem isinMask_getD (df : Df) (c : ColName) (vs : List ℚ) (i : ℕ) (h : i < rowCount df) :
    (isinMask df c vs).getD i false =
      vs.any (fun q => pyEqB (getCell (df.rows.getD i []) c) (.num q)) := by
  unfold isinMask
  exact colMask_getD df c _ i h

/-! ### Claim C8 -/

def dfW8 : Df :=
  ⟨["DIM".data, "FCM".data],
   [[("DIM".data, .num 40), ("FCM".data, .num 35)],
    [("DIM".data, .num 80), ("FCM".data, .num 35)],
    [("DIM".data, .num 50), ("FCM".data, .num 20)]]⟩

/-- Claim C8: for every dataset, applying the full filter with a blank
(empty or whitespace-only) expression and no boolean-column spec
returns the original dataset unchanged, same rows in the same order. -/
theorem claim_C8 (df : Df) (s : String) (h : (trimChars s.data).isEmpty = true) :
    apply_filters df s [] = some df := by
  unfold apply_filters applyFilters
  simp [h]

/-- Witness for C8: the whitespace-only expression on a concrete herd
dataset. -/
theorem claim_C8_witness :
    (trimChars ("   ".data)).isEmpty = true ∧ apply_filters dfW8 "   " [] = some dfW8 :=
  ⟨by rfl, claim_C8 dfW8 "   " (by rfl)⟩

/-! ### Claim C10 -/

def dfW10 : Df :=
  ⟨["A".data], [[("A".data, .num 1)], [("A".data, .str "y".data)]]⟩

/-- Claim C10 counterexample: on the malformed condition text `A = ,`
over a dataset that has column `A`, the Condition Matcher does not
return a mask at all: the backtracked value group `,` makes
`float('')` raise `ValueError` (modelled by `none`), so the claim that
every input text yields a mask of the dataset's row count is false.
The same exception propagates through `evaluate_filter`. -/
theorem claim_C10_counterexample :
    parse_condition dfW10 "A = ," = none ∧ evaluate_filter dfW10 "A = ," = none := by
  exact ⟨rfl, rfl⟩

end CowSel

namespace CowSel

/-! ### Claim C7 -/

/-- The per-row value of one column's boolean-filter sub-mask:
include-True picks `cell == True`, include-Blank picks
`cell is missing or cell == ""`. -/
theorem colBoolMask_getD (df : Df) (c : ColName) (it ib : Bool) (i : ℕ) (h : i < rowCount df) :
    (colBoolMask df c it ib).getD i false =
      ((it && pyEqB (getCell (df.rows.getD i []) c) (.bool true)) ||
       (ib && (isNA (getCell (df.rows.getD i []) c) ||
         pyEqB (getCell (df.rows.getD i []) c) (.str [])))) := by
  have hf : (falseMask df).getD i false = false := getD_replicate _ _ _ i h
  have hc1 := colMask_getD df c (fun v => pyEqB v (.bool true)) i h
  have hc2 := colMask_getD df c isNA i h
  have hc3 := colMask_getD df c (fun v => pyEqB v (.str [])) i h
  have e1 : colBoolMask df c false false = falseMask df := rfl
  have e2 : colBoolMask df c true false =
      orMask (falseMask df) (colMask df c (fun v => pyEqB v (.bool true))) := rfl
  have e3 : colBoolMask df c false true =
      orMask (orMask (falseMask df) (colMask df c isNA))
        (colMask df c (fun v => pyEqB v (.str []))) := rfl
  have e4 : colBoolMask df c true true =
      orMask (orMask (orMask (falseMask df)
        (colMask df c (fun v => pyEqB v (.bool true)))) (colMask df c isNA))
        (colMask df c (fun v => pyEqB v (.str []))) := rfl
  cases it <;> cases ib
  · rw [e1, hf]
    simp
  · rw [e3, orMask_getD _ _ i
        (by simpa [length_orMask, length_falseMask, length_colMask] using h)
        (by simpa [length_colMask] using h),
      orMask_getD _ _ i
        (by simpa [length_falseMask] using h)
        (by simpa [length_colMask] using h),
      hf, hc2, hc3]
    simp
  · rw [e2, orMask_getD _ _ i
        (by simpa [length_falseMask] using h)
        (by simpa [length_colMask] using h),
      hf, hc1]
    simp
  · rw [e4, orMask_getD _ _ i
        (by simpa [length_orMask, length_falseMask, length_colMask] using h)
        (by simpa [length_colMask] using h),
      orMask_getD _ _ i
        (by simpa [length_orMask, length_falseMask, length_colMask] using h)
        (by simpa [length_colMask] using h),
      orMask_getD _ _ i
        (by simpa [length_falseMask] using h)
        (by simpa [length_colMask] using h),
      hf, hc1, hc2, hc3]
    simp [Bool.or_assoc]

/-- Running `apply_bool_filters` over a spec list, starting from any
accumulator, yields pointwise the AND of the accumulator with every
listed column's sub-mask. -/
theorem applyBoolFiltersGo_spec (df : Df) :
    ∀ (fs : List (ColName × Bool × Bool)) (m0 : Mask),
      m0.length = rowCount df → (∀ f ∈ fs, f.1 ∈ df.columns) →
      ∃ m, applyBoolFiltersGo df m0 fs = some m ∧ m.length = rowCount df ∧
        ∀ i, i < rowCount df → m.getD i false =
          (m0.getD i false && fs.all (fun f =>
            (f.2.1 && pyEqB (getCell (df.rows.getD i []) f.1) (.bool true)) ||
            (f.2.2 && (isNA (getCell (df.rows.getD i []) f.1) ||
              pyEqB (getCell (df.rows.getD i []) f.1) (.str []))))) := by
  intro fs
  induction fs with
  | nil =>
    intro m0 h0 _
    exact ⟨m0, rfl, h0, fun i _ => by simp⟩
  | cons f t ih =>
    intro m0 h0 hcols
    have hf : f.1 ∈ df.columns := hcols f (by simp)
    have h0' : (andMask m0 (colBoolMask df f.1 f.2.1 f.2.2)).length = rowCount df := by
      simp [length_andMask, h0, length_colBoolMask]
    obtain ⟨m, hm, hlen, hpt⟩ := ih (andMask m0 (colBoolMask df f.1 f.2.1 f.2.2)) h0'
      (fun g hg => hcols g (by simp [hg]))
    refine ⟨m, ?_, hlen, ?_⟩
    · simp only [applyBoolFiltersGo, hf, if_true, ite_self]
      exact hm
    · intro i hi
      rw [hpt i hi, andMask_getD m0 _ i (by omega) (by simp [length_colBoolMask]; omega),
        colBoolMask_getD df f.1 f.2.1 f.2.2 i hi]
      simp [Bool.and_assoc]

/-- Claim C10 (amended): whenever `parse_condition` or
`evaluate_filter` returns a mask (for some malformed texts a `float`
conversion raises `ValueError` instead), its length equals the
dataset's row count; and for every boolean-filter spec over the
dataset's columns, `apply_bool_filters` always returns a mask of that
length. -/
theorem claim_C10_amended (df : Df) :
    (∀ c m df', parseCondition df c = some (m, df') → m.length = rowCount df) ∧
    (∀ e m df', evalFilter df e = some (m, df') → m.length = rowCount df) ∧
    (∀ fs, (∀ f ∈ fs, f.1 ∈ df.columns) →
      ∃ m, applyBoolFilters df fs = some m ∧ m.length = rowCount df) := by
  refine ⟨fun c m df' h => (parseCondition_inv df c m df' h).1,
    fun e m df' h => (evalFilter_inv df e m df' h).1,
    fun fs hcols => ?_⟩
  obtain ⟨m, hm, hlen, _⟩ := applyBoolFiltersGo_spec df fs (trueMask df)
    (length_trueMask df) hcols
  exact ⟨m, hm, hlen⟩

/-- Witness for the amended C10 on concrete inputs covering all three
operations. -/
theorem claim_C10_amended_witness :
    ([true, false] : Mask).length = rowCount dfW10 ∧
    ([false, false] : Mask).length = rowCount dfW10 ∧
    (∃ m, applyBoolFilters dfW10 [("A".data, true, true)] = some m ∧
      m.length = rowCount dfW10) :=
  ⟨(claim_C10_amended dfW10).1 "A = 1".data [true, false] dfW10 (by rfl),
   (claim_C10_amended dfW10).2.1 "zzz".data [false, false] dfW10 (by rfl),
   (claim_C10_amended dfW10).2.2 [("A".data, true, true)] (by decide)⟩

/-- Claim C7: for every dataset and boolean-column spec over existing
columns, `apply_bool_filters` returns the elementwise AND over all
spec columns of the per-row sub-masks
`(includeTrue AND cell==True) OR (includeBlank AND (cell missing OR cell == ""))`;
in particular a spec entry with both flags false makes the overall
mask all-false. -/
theorem claim_C7 (df : Df) (fs : List (ColName × Bool × Bool))
    (hcols : ∀ f ∈ fs, f.1 ∈ df.columns) :
    ∃ m, applyBoolFilters df fs = some m ∧
      (∀ i, i < rowCount df → m.getD i false =
        fs.all (fun f =>
          (f.2.1 && pyEqB (getCell (df.rows.getD i []) f.1) (.bool true)) ||
          (f.2.2 && (isNA (getCell (df.rows.getD i []) f.1) ||
            pyEqB (getCell (df.rows.getD i []) f.1) (.str []))))) ∧
      (∀ c, (c, false, false) ∈ fs → ∀ i, m.getD i false = false) := by
  obtain ⟨m, hm, hlen, hpt⟩ := applyBoolFiltersGo_spec df fs (trueMask df)
    (length_trueMask df) hcols
  refine ⟨m, hm, fun i hi => ?_, fun c hc i => ?_⟩
  · rw [hpt i hi, trueMask, getD_replicate _ _ _ i hi]
    simp
  · by_cases hi : i < rowCount df
    · rw [hpt i hi]
      have : fs.all (fun f =>
          (f.2.1 && pyEqB (getCell (df.rows.getD i []) f.1) (.bool true)) ||
          (f.2.2 && (isNA (getCell (df.rows.getD i []) f.1) ||
            pyEqB (getCell (df.rows.getD i []) f.1) (.str [])))) = false := by
        rw [List.all_eq_false]
        exact ⟨(c, false, false), hc, by simp⟩
      rw [this, Bool.and_false]
    · exact getD_oob false m i (by omega)

def dfW7 : Df :=
  ⟨["ok".data],
   [[("ok".data, .bool true)], [("ok".data, .missing)], [("ok".data, .bool false)]]⟩

/-- Witness for C7 on a concrete boolean-like column, checking the
computed mask for the (True, Blank) flags and the all-false effect of
a both-unticked column. -/
theorem claim_C7_witness :
    ∃ m, applyBoolFilters dfW7 [("ok".data, false, false)] = some m ∧
      (∀ i, i < rowCount dfW7 → m.getD i false =
        [(("ok".data : ColName), false, false)].all (fun f =>
          (f.2.1 && pyEqB (getCell (dfW7.rows.getD i []) f.1) (.bool true)) ||
          (f.2.2 && (isNA (getCell (dfW7.rows.getD i []) f.1) ||
            pyEqB (getCell (dfW7.rows.getD i []) f.1) (.str []))))) ∧
      (∀ c, (c, false, false) ∈ [(("ok".data : ColName), false, false)] →
        ∀ i, m.getD i false = false) :=
  claim_C7 dfW7 [("ok".data, false, false)] (by decide)

end CowSel

namespace CowSel

/-! ### Shape dispatch facts -/

/-- If the inclusion-list shape `col = v1,...` matches, the
exclusion-list shape cannot: the character after the column and the
whitespace is `=`, not `!`. -/
theorem matchListPat_ne_of_eq (s : List Char) (x : ColName × List Char)
    (h : matchListPat ['='] s = some x) : matchListPat ['!', '='] s = none := by
  unfold matchListPat at h ⊢
  by_cases hcol : (s.takeWhile isWordChar).isEmpty
  · simp [hcol] at h
  · simp only [hcol, Bool.false_eq_true, if_false] at h ⊢
    cases hr : (s.dropWhile isWordChar).dropWhile isSpc with
    | nil => rw [hr] at h; simp [expectLit, List.isPrefixOf] at h
    | cons c t =>
      rw [hr] at h
      by_cases hc : c = '='
      · subst hc
        simp [expectLit, List.isPrefixOf]
      · have hc2 : ¬('=' = c) := fun hh => hc hh.symm
        simp [expectLit, List.isPrefixOf, hc2] at h

/-! ### Claim C4 -/

/-- Claim C4: a condition `col = text` that matches none of the four
earlier shapes and whose column exists produces the categorical
equality mask: a row is kept exactly when the string form of its cell
equals the (stripped) right-hand text. -/
theorem claim_C4 (df : Df) (cond : List Char) (col : ColName) (val : List Char)
    (h1 : matchListPat ['!', '='] (trimChars cond) = none)
    (h2 : matchListPat ['='] (trimChars cond) = none)
    (h3 : matchRange (trimChars cond) = none)
    (h4 : matchCmp (trimChars cond) = none)
    (h5 : matchCatEq (trimChars cond) = some (col, val))
    (hcol : col ∈ df.columns) :
    parseCondition df cond = some (eqStrMask df col val, df) ∧
      ∀ i, i < rowCount df →
        ((eqStrMask df col val).getD i false = true ↔
          pyStr (getCell (df.rows.getD i []) col) = val) := by
  constructor
  · simp only [parseCondition, h1, h2, h3, h4, h5, hcol, if_true]
  · intro i hi
    unfold eqStrMask
    rw [colMask_getD df col _ i hi]
    exact beq_iff_eq

def dfW4 : Df :=
  ⟨["NAME".data],
   [[("NAME".data, .str "Bessie".data)], [("NAME".data, .str "Moo".data)]]⟩

/-- Witness for C4: `NAME =Bessie` on a concrete text column.  (With a
space after the `=` the inclusion-list pattern would match instead,
with a backtracked single-space value group.) -/
theorem claim_C4_witness :
    parseCondition dfW4 "NAME =Bessie".data =
      some (eqStrMask dfW4 "NAME".data "Bessie".data, dfW4) ∧
    ∀ i, i < rowCount dfW4 →
      ((eqStrMask dfW4 "NAME".data "Bessie".data).getD i false = true ↔
        pyStr (getCell (dfW4.rows.getD i []) "NAME".data) = "Bessie".data) :=
  claim_C4 dfW4 "NAME =Bessie".data "NAME".data "Bessie".data
    (by rfl) (by rfl) (by rfl) (by rfl) (by rfl) (by decide)

/-! ### Claim C6 -/

/-- Claim C6: a range condition `lo <= col <= hi` (plain numeric
bounds, lo ≤ hi, existing column) is inclusive at both ends: a row
whose numerically coerced cell equals `lo` or `hi` is in the mask. -/
theorem claim_C6 (df : Df) (cond : List Char) (g1 g2 : List Char) (col : ColName)
    (lo hi : ℚ) (i : ℕ) (v : ℚ)
    (h1 : matchListPat ['!', '='] (trimChars cond) = none)
    (h2 : matchListPat ['='] (trimChars cond) = none)
    (h3 : matchRange (trimChars cond) = some (g1, col, g2))
    (hlo : pyFloat g1 = some lo) (hhi : pyFloat g2 = some hi)
    (hle : lo ≤ hi) (hcol : col ∈ df.columns)
    (hiR : i < rowCount df)
    (hv : toNumeric (getCell (df.rows.getD i []) col) = some v)
    (hvb : v = lo ∨ v = hi) :
    parseCondition df cond =
      some (andMask (colMask (coerceCol df col) col (cmpCell .ge lo))
        (colMask (coerceCol df col) col (cmpCell .le hi)), coerceCol df col) ∧
    (andMask (colMask (coerceCol df col) col (cmpCell .ge lo))
      (colMask (coerceCol df col) col (cmpCell .le hi))).getD i false = true := by
  constructor
  · simp only [parseCondition, h1, h2, h3, hlo, hhi, hcol, if_true]
  · have hir' : i < rowCount (coerceCol df col) := by
      simpa [rowCount_coerceCol] using hiR
    rw [andMask_getD _ _ i (by simpa [length_colMask, rowCount_coerceCol] using hiR)
        (by simpa [length_colMask, rowCount_coerceCol] using hiR),
      colMask_getD _ _ _ i hir', colMask_getD _ _ _ i hir', coerceCol_cell df col i hiR]
    have hnc : numCoerce (getCell (df.rows.getD i []) col) = .num v := by
      unfold numCoerce
      rw [hv]
    rw [hnc]
    rcases hvb with rfl | rfl
    · simp [cmpCell, hle]
    · simp [cmpCell, hle]

def dfW6 : Df :=
  ⟨["DIM".data], [[("DIM".data, .num 30)], [("DIM".data, .num 70)], [("DIM".data, .num 80)]]⟩

/-- Witness for C6: `30 <= DIM <= 70` keeps a row whose `DIM` is
exactly the lower bound. -/
theorem claim_C6_witness :
    parseCondition dfW6 "30 <= DIM <= 70".data =
      some (andMask (colMask (coerceCol dfW6 "DIM".data) "DIM".data (cmpCell .ge 30))
        (colMask (coerceCol dfW6 "DIM".data) "DIM".data (cmpCell .le 70)),
        coerceCol dfW6 "DIM".data) ∧
    (andMask (colMask (coerceCol dfW6 "DIM".data) "DIM".data (cmpCell .ge 30))
      (colMask (coerceCol dfW6 "DIM".data) "DIM".data (cmpCell .le 70))).getD 0 false = true :=
  claim_C6 dfW6 "30 <= DIM <= 70".data "30".data "70".data "DIM".data 30 70 0 30
    (by rfl) (by rfl) (by rfl) (by rfl) (by rfl) (by norm_num) (by decide)
    (by decide) (by rfl) (Or.inl rfl)

end CowSel

namespace CowSel

/-! ### Claim C5 -/

def dfW5 : Df := ⟨["A".data], [[("A".data, .num 1)]]⟩

/-- Claim C5 counterexample: the condition `B > 1.2.3` matches the
comparison shape and references a column absent from the dataset, yet
the matcher does not return the all-false mask: the source converts
the value with `float` before checking the column, so a `ValueError`
is raised (modelled by `none`) instead of the claimed silent no-op. -/
theorem claim_C5_counterexample :
    ("B".data ∉ dfW5.columns) ∧ parse_condition dfW5 "B > 1.2.3" = none := by
  exact ⟨by decide, rfl⟩

/-- Claim C5 (amended): an unknown-column condition produces the
silent all-false mask of full row count for every shape, provided the
numeric literals of a matched range or comparison shape parse as
floats (their conversion precedes the column check and raises
otherwise); a condition matching no shape always produces the
all-false mask. -/
theorem claim_C5_amended (df : Df) (cond : List Char) :
    (∀ col vals, matchListPat ['!', '='] (trimChars cond) = some (col, vals) →
      col ∉ df.columns → parseCondition df cond = some (falseMask df, df)) ∧
    (∀ col vals, matchListPat ['!', '='] (trimChars cond) = none →
      matchListPat ['='] (trimChars cond) = some (col, vals) →
      col ∉ df.columns → parseCondition df cond = some (falseMask df, df)) ∧
    (∀ g1 col g2 v1 v2, matchListPat ['!', '='] (trimChars cond) = none →
      matchListPat ['='] (trimChars cond) = none →
      matchRange (trimChars cond) = some (g1, col, g2) →
      pyFloat g1 = some v1 → pyFloat g2 = some v2 →
      col ∉ df.columns → parseCondition df cond = some (falseMask df, df)) ∧
    (∀ col o g v, matchListPat ['!', '='] (trimChars cond) = none →
      matchListPat ['='] (trimChars cond) = none →
      matchRange (trimChars cond) = none →
      matchCmp (trimChars cond) = some (col, o, g) → pyFloat g = some v →
      col ∉ df.columns → parseCondition df cond = some (falseMask df, df)) ∧
    (∀ col val, matchListPat ['!', '='] (trimChars cond) = none →
      matchListPat ['='] (trimChars cond) = none →
      matchRange (trimChars cond) = none →
      matchCmp (trimChars cond) = none →
      matchCatEq (trimChars cond) = some (col, val) →
      col ∉ df.columns → parseCondition df cond = some (falseMask df, df)) ∧
    (matchListPat ['!', '='] (trimChars cond) = none →
      matchListPat ['='] (trimChars cond) = none →
      matchRange (trimChars cond) = none →
      matchCmp (trimChars cond) = none →
      matchCatEq (trimChars cond) = none →
      parseCondition df cond = some (falseMask df, df)) ∧
    (falseMask df).length = rowCount df := by
  refine ⟨?_, ?_, ?_, ?_, ?_, ?_, length_falseMask df⟩
  · intro col vals h1 hc
    simp only [parseCondition, h1, hc, if_false]
  · intro col vals h1 h2 hc
    simp only [parseCondition, h1, h2, hc, if_false]
  · intro g1 col g2 v1 v2 h1 h2 h3 hv1 hv2 hc
    simp only [parseCondition, h1, h2, h3, hv1, hv2, hc, if_false]
  · intro col o g v h1 h2 h3 h4 hv hc
    simp only [parseCondition, h1, h2, h3, h4, hv, hc, if_false]
  · intro col val h1 h2 h3 h4 h5 hc
    simp only [parseCondition, h1, h2, h3, h4, h5, hc, if_false]
  · intro h1 h2 h3 h4 h5
    simp only [parseCondition, h1, h2, h3, h4, h5]

/-- Witness for the amended C5: an unknown-column comparison with a
well-formed literal, and a no-shape condition, both on a concrete
dataset. -/
theorem claim_C5_amended_witness :
    parseCondition dfW5 "B > 5".data = some (falseMask dfW5, dfW5) ∧
    parseCondition dfW5 "###".data = some (falseMask dfW5, dfW5) :=
  ⟨(claim_C5_amended dfW5 "B > 5".data).2.2.2.1 "B".data CmpOp.gt "5".data 5
      (by rfl) (by rfl) (by rfl) (by rfl) (by rfl) (by decide),
   (claim_C5_amended dfW5 "###".data).2.2.2.2.2.1
      (by rfl) (by rfl) (by rfl) (by rfl) (by rfl)⟩

/-! ### Claim C2 -/

def dfW2 : Df := ⟨["A".data], [[("A".data, .str "x".data)]]⟩

/-- Claim C2 counterexample: over a dataset whose only `A` cell is the
non-numeric text `x`, the exclusion condition `A != 5` marks the
coercion-failure row TRUE (the raw cell is simply not in the float
list, and `~isin` includes it), contradicting the claim that rows
failing numeric coercion are false in both masks. -/
theorem claim_C2_counterexample :
    toNumeric (getCell (dfW2.rows.getD 0 []) "A".data) = none ∧
    parse_condition dfW2 "A != 5" = some ([true], dfW2) ∧
    parse_condition dfW2 "A = 5" = some ([false], dfW2) := by
  exact ⟨rfl, rfl, rfl⟩

/-- Claim C2 (amended): the masks of `col != v1,...,vk` and
`col = v1,...,vk` are exact pointwise complements over ALL rows (the
`!=` mask is the elementwise negation of the `=` mask); a row whose
cell fails numeric coercion is false in the `=` mask and TRUE in the
`!=` mask — the two shapes do not coerce, they test raw membership in
the float list. -/
theorem claim_C2_amended (df : Df) (condNe condEq : List Char) (col : ColName)
    (vals : List Char) (vs : List ℚ)
    (hne : matchListPat ['!', '='] (trimChars condNe) = some (col, vals))
    (heq : matchListPat ['='] (trimChars condEq) = some (col, vals))
    (hcol : col ∈ df.columns)
    (hvs : parseFloatList vals = some vs) :
    parseCondition df condNe = some (notMask (isinMask df col vs), df) ∧
    parseCondition df condEq = some (isinMask df col vs, df) ∧
    (∀ i, i < rowCount df →
      (notMask (isinMask df col vs)).getD i false = !((isinMask df col vs).getD i false)) ∧
    (∀ i, i < rowCount df → toNumeric (getCell (df.rows.getD i []) col) = none →
      (isinMask df col vs).getD i false = false ∧
      (notMask (isinMask df col vs)).getD i false = true) := by
  have hnone := matchListPat_ne_of_eq (trimChars condEq) (col, vals) heq
  have hpt : ∀ i, i < rowCount df → toNumeric (getCell (df.rows.getD i []) col) = none →
      (isinMask df col vs).getD i false = false := by
    intro i hi hf
    rw [isinMask_getD df col vs i hi, List.any_eq_false]
    intro q _
    rw [pyEqB_num_of_toNumeric_none _ q hf]
    simp
  refine ⟨?_, ?_, ?_, fun i hi hf => ⟨hpt i hi hf, ?_⟩⟩
  · simp only [parseCondition, hne, hcol, if_true, hvs]
  · simp only [parseCondition, hnone, heq, hcol, if_true, hvs]
  · intro i hi
    exact getD_notMask _ i (by simpa [length_isinMask] using hi)
  · rw [getD_notMask _ i (by simpa [length_isinMask] using hi), hpt i hi hf]
    rfl

def dfW2b : Df :=
  ⟨["A".data], [[("A".data, .num 5)], [("A".data, .str "x".data)], [("A".data, .num 7)]]⟩

/-- Witness for the amended C2 on `A != 5, 7` / `A = 5, 7` over a
mixed numeric and text column. -/
theorem claim_C2_amended_witness :
    parseCondition dfW2b "A != 5, 7".data =
      some (notMask (isinMask dfW2b "A".data [5, 7]), dfW2b) ∧
    parseCondition dfW2b "A = 5, 7".data =
      some (isinMask dfW2b "A".data [5, 7], dfW2b) ∧
    (∀ i, i < rowCount dfW2b →
      (notMask (isinMask dfW2b "A".data [5, 7])).getD i false =
        !((isinMask dfW2b "A".data [5, 7]).getD i false)) ∧
    (∀ i, i < rowCount dfW2b →
      toNumeric (getCell (dfW2b.rows.getD i []) "A".data) = none →
      (isinMask dfW2b "A".data [5, 7]).getD i false = false ∧
      (notMask (isinMask dfW2b "A".data [5, 7])).getD i false = true) :=
  claim_C2_amended dfW2b "A != 5, 7".data "A = 5, 7".data "A".data "5, 7".data [5, 7]
    (by rfl) (by rfl) (by decide) (by rfl)

end CowSel

namespace CowSel

/-! ### Claim C3 -/

def dfW3 : Df := ⟨["A".data], [[("A".data, .str "zz".data)]]⟩

/-- Claim C3 counterexample: for the operator `!=` the claim fails.
`A != 7` is captured by the exclusion-list shape, which does not
coerce: the non-numeric cell `zz` is not in the float list, so the
row is marked TRUE (included), not false as claimed. -/
theorem claim_C3_counterexample :
    toNumeric (getCell (dfW3.rows.getD 0 []) "A".data) = none ∧
    parse_condition dfW3 "A != 7" = some ([true], dfW3) := by
  exact ⟨rfl, rfl⟩

/-- Claim C3 (amended): for a single comparison `col op value` with a
plain-number value over an existing column and a row whose cell fails
numeric coercion, no error is raised and: for op in {>, <, >=, <=}
(the shapes reaching the coerced comparison) the row's mask entry is
false; for `=` the condition is captured by the inclusion-list shape
and the entry is also false; but for `!=` it is captured by the
exclusion-list shape and the entry is TRUE. -/
theorem claim_C3_amended (df : Df) (cond : List Char) (col : ColName) (g : List Char)
    (i : ℕ) (hcol : col ∈ df.columns) (hiR : i < rowCount df)
    (hfail : toNumeric (getCell (df.rows.getD i []) col) = none) :
    (∀ o v, matchListPat ['!', '='] (trimChars cond) = none →
      matchListPat ['='] (trimChars cond) = none →
      matchRange (trimChars cond) = none →
      matchCmp (trimChars cond) = some (col, o, g) →
      pyFloat g = some v →
      (o = CmpOp.gt ∨ o = CmpOp.lt ∨ o = CmpOp.ge ∨ o = CmpOp.le) →
      ∃ m, parseCondition df cond = some (m, coerceCol df col) ∧ m.getD i false = false) ∧
    (∀ vs, matchListPat ['!', '='] (trimChars cond) = none →
      matchListPat ['='] (trimChars cond) = some (col, g) →
      parseFloatList g = some vs →
      ∃ m, parseCondition df cond = some (m, df) ∧ m.getD i false = false) ∧
    (∀ vs, matchListPat ['!', '='] (trimChars cond) = some (col, g) →
      parseFloatList g = some vs →
      ∃ m, parseCondition df cond = some (m, df) ∧ m.getD i false = true) := by
  have hisin : ∀ vs : List ℚ, (isinMask df col vs).getD i false = false := by
    intro vs
    rw [isinMask_getD df col vs i hiR, List.any_eq_false]
    intro q _
    rw [pyEqB_num_of_toNumeric_none _ q hfail]
    simp
  refine ⟨?_, ?_, ?_⟩
  · intro o v h1 h2 h3 h4 hv ho
    refine ⟨colMask (coerceCol df col) col (cmpCell o v), ?_, ?_⟩
    · simp only [parseCondition, h1, h2, h3, h4, hv, hcol, if_true]
    · have hir' : i < rowCount (coerceCol df col) := by
        simpa [rowCount_coerceCol] using hiR
      rw [colMask_getD _ _ _ i hir', coerceCol_cell df col i hiR]
      have hnc : numCoerce (getCell (df.rows.getD i []) col) = .missing := by
        unfold numCoerce
        rw [hfail]
      rw [hnc]
      rcases ho with rfl | rfl | rfl | rfl <;> rfl
  · intro vs h1 h2 hvs
    refine ⟨isinMask df col vs, ?_, hisin vs⟩
    simp only [parseCondition, h1, h2, hvs, hcol, if_true]
  · intro vs h1 hvs
    refine ⟨notMask (isinMask df col vs), ?_, ?_⟩
    · simp only [parseCondition, h1, hvs, hcol, if_true]
    · rw [getD_notMask _ i (by simpa [length_isinMask] using hiR), hisin vs]
      rfl

/-- Witness for the amended C3: the non-numeric cell `zz` under
`A > 5` (excluded), `A = 5` (excluded) and `A != 5` (included). -/
theorem claim_C3_amended_witness :
    (∃ m, parseCondition dfW3 "A > 5".data = some (m, coerceCol dfW3 "A".data) ∧
      m.getD 0 false = false) ∧
    (∃ m, parseCondition dfW3 "A = 5".data = some (m, dfW3) ∧ m.getD 0 false = false) ∧
    (∃ m, parseCondition dfW3 "A != 5".data = some (m, dfW3) ∧ m.getD 0 false = true) :=
  ⟨(claim_C3_amended dfW3 "A > 5".data "A".data "5".data 0 (by decide) (by decide)
      (by rfl)).1 CmpOp.gt 5 (by rfl) (by rfl) (by rfl) (by rfl) (by rfl) (Or.inl rfl),
   (claim_C3_amended dfW3 "A = 5".data "A".data "5".data 0 (by decide) (by decide)
      (by rfl)).2.1 [5] (by rfl) (by rfl) (by rfl),
   (claim_C3_amended dfW3 "A != 5".data "A".data "5".data 0 (by decide) (by decide)
      (by rfl)).2.2 [5] (by rfl) (by rfl)⟩

end CowSel

namespace CowSel

/-! ### Claim C9 -/

theorem filter_zip_sublist : ∀ (l : List Row) (m : Mask),
    ((((l.zip m).filter (fun p => p.2)).map Prod.fst)).Sublist l := by
  intro l
  induction l with
  | nil => intro m; simp
  | cons x t ih =>
    intro m
    cases m with
    | nil => simp
    | cons b bs =>
      cases b with
      | true => simpa using List.Sublist.cons₂ x (ih bs)
      | false => simpa using List.Sublist.cons x (ih bs)

theorem selectRows_rows_sublist (df : Df) (m : Mask) :
    (selectRows df m).rows.Sublist df.rows :=
  filter_zip_sublist df.rows m

theorem selectRows_columns (df : Df) (m : Mask) :
    (selectRows df m).columns = df.columns := rfl

/-- Claim C9: filtering never mutates the caller's dataset in any way
other than numeric coercion of referenced columns in the working copy:
the Condition Matcher's output frame is the input frame or the input
frame with one (existing) column coerced; the evaluator's working
frame keeps the same columns and row count and every column is either
untouched or numerically coerced as a whole; and the Apply step
produces a new dataset whose rows are a subsequence of such a working
frame (a derived mask/subset, not an in-place mutation). -/
theorem claim_C9 (df : Df) :
    (∀ cond m df', parseCondition df cond = some (m, df') →
      df' = df ∨ ∃ col, col ∈ df.columns ∧ df' = coerceCol df col) ∧
    (∀ e m df', evalFilter df e = some (m, df') → dfStep df df') ∧
    (∀ inp fs out, applyFilters df inp fs = some out →
      out.columns = df.columns ∧ ∃ w, dfStep df w ∧ out.rows.Sublist w.rows) := by
  refine ⟨fun cond m df' h => (parseCondition_inv df cond m df' h).2,
    fun e m df' h => (evalFilter_inv df e m df' h).2,
    fun inp fs out h => ?_⟩
  unfold applyFilters at h
  by_cases htrim : (trimChars inp).isEmpty
  · simp only [htrim, if_true] at h
    by_cases hfs : fs.isEmpty
    · simp only [hfs, if_true, Option.some.injEq] at h
      subst h
      exact ⟨rfl, df, dfStep_refl df, List.Sublist.refl _⟩
    · simp only [hfs, Bool.false_eq_true, if_false] at h
      cases hbm : applyBoolFilters df fs with
      | none => rw [hbm] at h; exact absurd h (by simp)
      | some bm =>
        rw [hbm] at h
        simp only [Option.some.injEq] at h
        subst h
        exact ⟨rfl, df, dfStep_refl df, selectRows_rows_sublist df bm⟩
  · simp only [htrim, Bool.false_eq_true, if_false] at h
    cases hev : evalFilter df inp with
    | none => rw [hev] at h; simp at h
    | some md =>
      rw [hev] at h
      have hstep := (evalFilter_inv df inp md.1 md.2 (by simpa using hev)).2
      simp only at h
      by_cases hfs : fs.isEmpty
      · simp only [hfs, if_true, Option.some.injEq] at h
        subst h
        exact ⟨(selectRows_columns md.2 md.1).trans hstep.1, md.2, hstep,
          selectRows_rows_sublist md.2 md.1⟩
      · simp only [hfs, Bool.false_eq_true, if_false] at h
        cases hbm : applyBoolFilters (selectRows md.2 md.1) fs with
        | none => rw [hbm] at h; exact absurd h (by simp)
        | some bm =>
          rw [hbm] at h
          simp only [Option.some.injEq] at h
          subst h
          refine ⟨(selectRows_columns _ _).trans
            ((selectRows_columns md.2 md.1).trans hstep.1), md.2, hstep, ?_⟩
          exact (selectRows_rows_sublist _ bm).trans (selectRows_rows_sublist md.2 md.1)

/-- Witness for C9: applying `30 <= DIM <= 70` to a concrete herd
dataset yields a column-coerced working frame and a row subsequence. -/
theorem claim_C9_witness :
    (selectRows (coerceCol dfW8 "DIM".data) [true, false, true]).columns = dfW8.columns ∧
    ∃ w, dfStep dfW8 w ∧
      (selectRows (coerceCol dfW8 "DIM".data) [true, false, true]).rows.Sublist w.rows :=
  (claim_C9 dfW8).2.2 "30 <= DIM <= 70".data [] _ (by rfl)

end CowSel

namespace CowSel

/-! ### Claim C1 -/

def dfW1 : Df := ⟨["x".data], [[("x".data, .num 5)]]⟩

/-- Claim C1 counterexample: with A = `x > 10` (false), B = `x > 20`
(false), C = `x > 1` (true) over the single row `x = 5`, the code
evaluates `A AND B OR C` to `[true]` — the OR split happens first and
is therefore the OUTERMOST operator, giving `(A AND B) OR C` — while
the claimed grouping `A AND (B OR C)` gives `[false]`. -/
theorem claim_C1_counterexample :
    (evaluate_filter dfW1 "x > 10 AND x > 20 OR x > 1").map Prod.fst = some [true] ∧
    (evaluate_filter dfW1 "x > 10").map Prod.fst = some [false] ∧
    (evaluate_filter dfW1 "x > 20").map Prod.fst = some [false] ∧
    (evaluate_filter dfW1 "x > 1").map Prod.fst = some [true] ∧
    andMask [false] (orMask [false] [true]) = [false] ∧ ([false] : Mask) ≠ [true] := by
  exact ⟨rfl, rfl, rfl, rfl, rfl, by decide⟩

end CowSel

namespace CowSel

/-! ### Scanning a concatenation: no-occurrence regions -/

/-- The character just before the position that follows `x` when `x`
itself follows a position with previous character `prev`. -/
def lastPrev (x : List Char) (prev : Option Char) : Option Char :=
  match x.getLast? with
  | some ch => some ch
  | none => prev

/-- `noMatchAlong w prev x rest` says the scan finds no occurrence of
the word `w` starting at any position inside `x`, in the text
`x ++ rest` (lookahead into `rest` included). -/
def noMatchAlong (w : List Char) : Option Char → List Char → List Char → Bool
  | _, [], _ => true
  | prev, ch :: t, rest =>
    (wordAt w prev (ch :: (t ++ rest))).isNone && noMatchAlong w (some ch) t rest

theorem lastPrev_cons (ch : Char) (t : List Char) (prev : Option Char) :
    lastPrev (ch :: t) prev = lastPrev t (some ch) := by
  cases t with
  | nil => rfl
  | cons d u =>
    unfold lastPrev
    rw [List.getLast?_cons_cons]
    cases hg : (d :: u).getLast? with
    | some e => rfl
    | none => simp at hg

theorem findWord_append (w : List Char) :
    ∀ (x : List Char) (prev : Option Char) (rest : List Char),
      noMatchAlong w prev x rest = true →
      findWord w prev (x ++ rest) =
        (findWord w (lastPrev x prev) rest).map (fun pq => (x ++ pq.1, pq.2)) := by
  intro x
  induction x with
  | nil =>
    intro prev rest _
    cases hf : findWord w prev rest <;> simp [lastPrev, hf]
  | cons ch t ih =>
    intro prev rest h
    simp only [noMatchAlong, Bool.and_eq_true, Option.isNone_iff_eq_none] at h
    obtain ⟨h1, h2⟩ := h
    simp only [List.cons_append, findWord, List.append_eq, h1]
    rw [ih (some ch) rest h2, lastPrev_cons]
    cases hf : findWord w (lastPrev t (some ch)) rest <;> simp [hf]

theorem findWord_of_noMatch_nil (w : List Char) (prev : Option Char) (x : List Char)
    (h : noMatchAlong w prev x [] = true) : findWord w prev x = none := by
  have := findWord_append w x prev [] h
  simpa [findWord] using this

theorem matchCI_append (w : List Char) :
    ∀ (s u r : List Char), matchCI w s = some r → matchCI w (s ++ u) = some (r ++ u) := by
  induction w with
  | nil =>
    intro s u r h
    simp only [matchCI, Option.some.injEq] at h
    subst h; rfl
  | cons a ws ih =>
    intro s u r h
    cases s with
    | nil => simp [matchCI] at h
    | cons ch cs =>
      simp only [matchCI] at h ⊢
      split at h
      · rename_i hcl
        simp only [List.cons_append, matchCI, hcl, if_true]
        exact ih cs u r h
      · exact absurd h (by simp)

theorem matchCI_cons (a : Char) (ws : List Char) (ch : Char) (cs : List Char) :
    matchCI (a :: ws) (ch :: cs) =
      if ch.toLower = a.toLower then matchCI ws cs else none := rfl

theorem matchCI_append_none (w : List Char) :
    ∀ (s u : List Char), matchCI w s = none → u.head? = some ' ' →
      (∀ ch ∈ w, ¬(' '.toLower = ch.toLower)) → matchCI w (s ++ u) = none := by
  induction w with
  | nil => intro s u h _ _; simp [matchCI] at h
  | cons a ws ih =>
    intro s u h hu hw
    cases s with
    | nil =>
      cases u with
      | nil => rfl
      | cons d du =>
        simp only [List.head?_cons, Option.some.injEq] at hu
        subst hu
        rw [List.nil_append, matchCI_cons, if_neg (hw a (by simp))]
    | cons ch cs =>
      rw [matchCI_cons] at h
      rw [List.cons_append, matchCI_cons]
      by_cases hcl : ch.toLower = a.toLower
      · rw [if_pos hcl] at h
        rw [if_pos hcl]
        exact ih cs u h hu (fun x hx => hw x (by simp [hx]))
      · rw [if_neg hcl]

theorem wordAt_append_none (w : List Char) (prev : Option Char) (s u : List Char)
    (h : wordAt w prev s = none) (hu : u.head? = some ' ')
    (hw : ∀ ch ∈ w, ¬(' '.toLower = ch.toLower)) :
    wordAt w prev (s ++ u) = none := by
  unfold wordAt at h ⊢
  split
  · rename_i hok
    rw [if_pos hok] at h
    cases hm : matchCI w s with
    | none => rw [matchCI_append_none w s u hm hu hw]
    | some r =>
      simp only [hm] at h
      cases hh : r.head? with
      | none => simp [hh] at h
      | some ch =>
        simp only [hh] at h
        split at h
        · rename_i hword
          rw [matchCI_append w s u r hm]
          cases r with
          | nil => simp at hh
          | cons r0 rt =>
            simp only [List.head?_cons, Option.some.injEq] at hh
            subst hh
            simp only [List.cons_append, List.head?_cons]
            rw [if_pos hword]
        · exact absurd h (by simp)
  · rfl

theorem noMatchAlong_extend (w : List Char) (u : List Char) (hu : u.head? = some ' ')
    (hw : ∀ ch ∈ w, ¬(' '.toLower = ch.toLower)) :
    ∀ (x : List Char) (prev : Option Char),
      noMatchAlong w prev x [] = true → noMatchAlong w prev x u = true := by
  intro x
  induction x with
  | nil => intro prev _; rfl
  | cons ch t ih =>
    intro prev h
    simp only [noMatchAlong, List.append_nil, Bool.and_eq_true,
      Option.isNone_iff_eq_none] at h
    obtain ⟨h1, h2⟩ := h
    simp only [noMatchAlong, Bool.and_eq_true, Option.isNone_iff_eq_none]
    constructor
    · exact wordAt_append_none w prev (ch :: t) u h1 hu hw
    · exact ih (some ch) h2

theorem noMatchAlong_append (w : List Char) :
    ∀ (x1 x2 : List Char) (prev : Option Char) (rest : List Char),
      noMatchAlong w prev (x1 ++ x2) rest =
        (noMatchAlong w prev x1 (x2 ++ rest) && noMatchAlong w (lastPrev x1 prev) x2 rest) := by
  intro x1
  induction x1 with
  | nil => intro x2 prev rest; simp [noMatchAlong, lastPrev]
  | cons ch t ih =>
    intro x2 prev rest
    simp only [List.cons_append, noMatchAlong, List.append_eq, List.append_assoc,
      ih x2 (some ch) rest, lastPrev_cons, Bool.and_assoc]

theorem prevOk_congr_wordAt (w : List Char) (p1 p2 : Option Char) (s : List Char)
    (h : prevOk p1 = prevOk p2) : wordAt w p1 s = wordAt w p2 s := by
  unfold wordAt
  rw [h]

theorem noMatchAlong_prevCongr (w : List Char) (p1 p2 : Option Char) (x rest : List Char)
    (h : prevOk p1 = prevOk p2) :
    noMatchAlong w p1 x rest = noMatchAlong w p2 x rest := by
  cases x with
  | nil => rfl
  | cons ch t =>
    simp only [noMatchAlong]
    rw [prevOk_congr_wordAt w p1 p2 _ h]

theorem wordAt_head_ne (wc : Char) (wt : List Char) (prev : Option Char) (ch : Char)
    (t : List Char) (h : ¬(ch.toLower = wc.toLower)) :
    wordAt (wc :: wt) prev (ch :: t) = none := by
  unfold wordAt
  have hm : matchCI (wc :: wt) (ch :: t) = none := by
    simp only [matchCI]
    rw [if_neg h]
  rw [hm]
  split <;> rfl

end CowSel

namespace CowSel

/-! ### Atomic condition texts and the shape of the composite split -/

/-- An atomic condition text as the spec constrains it: non-empty,
trimmed (no leading or trailing whitespace), not starting with a
parenthesis, and containing no whole-word occurrence of `OR` or
`AND`. -/
def atomicOK (s : List Char) : Bool :=
  !s.isEmpty &&
  (match s.head? with
   | some ch => !isSpc ch && !(ch = '(')
   | none => false) &&
  (match s.getLast? with
   | some ch => !isSpc ch
   | none => false) &&
  noMatchAlong orWord none s [] &&
  noMatchAlong andWord none s []

theorem atomicOK_spec (s : List Char) (h : atomicOK s = true) :
    s ≠ [] ∧ (∀ ch, s.head? = some ch → isSpc ch = false ∧ ch ≠ '(') ∧
    (∀ ch, s.getLast? = some ch → isSpc ch = false) ∧
    noMatchAlong orWord none s [] = true ∧ noMatchAlong andWord none s [] = true := by
  unfold atomicOK at h
  simp only [Bool.and_eq_true, Bool.not_eq_true'] at h
  obtain ⟨⟨⟨⟨h1, h2⟩, h3⟩, h4⟩, h5⟩ := h
  refine ⟨by simpa using h1, ?_, ?_, h4, h5⟩
  · intro ch hch
    rw [hch] at h2
    simp only [Bool.and_eq_true, Bool.not_eq_true'] at h2
    exact ⟨h2.1, by simpa using h2.2⟩
  · intro ch hch
    rw [hch] at h3
    simpa using h3

theorem dropWhile_cons_of_neg (p : Char → Bool) (ch : Char) (t : List Char)
    (h : p ch = false) : (ch :: t).dropWhile p = ch :: t := by
  simp [List.dropWhile, h]

theorem trimChars_eq_self (s : List Char)
    (hh : ∀ ch, s.head? = some ch → isSpc ch = false)
    (hl : ∀ ch, s.getLast? = some ch → isSpc ch = false) : trimChars s = s := by
  unfold trimChars
  cases s with
  | nil => rfl
  | cons ch t =>
    rw [dropWhile_cons_of_neg _ _ _ (hh ch rfl)]
    cases hrev : (ch :: t).reverse with
    | nil =>
      have := congrArg List.length hrev
      simp at this
    | cons d u =>
      have hd : (ch :: t).getLast? = some d := by
        rw [← List.head?_reverse, hrev]
        rfl
      rw [dropWhile_cons_of_neg _ _ _ (hl d hd)]
      rw [← hrev, List.reverse_reverse]

theorem dropWhile_spc_append (ws : List Char) (hws : ∀ ch ∈ ws, isSpc ch = true) :
    ∀ (y : List Char), (∀ ch, y.head? = some ch → isSpc ch = false) →
      (ws ++ y).dropWhile isSpc = y := by
  induction ws with
  | nil =>
    intro y hy
    cases y with
    | nil => rfl
    | cons ch t => exact dropWhile_cons_of_neg _ _ _ (hy ch rfl)
  | cons w0 wt ih =>
    intro y hy
    simp only [List.cons_append, List.dropWhile, hws w0 (by simp)]
    exact ih (fun ch hch => hws ch (by simp [hch])) y hy

theorem trimChars_pad (x : List Char) (hx : x ≠ [])
    (hh : ∀ ch, x.head? = some ch → isSpc ch = false)
    (hl : ∀ ch, x.getLast? = some ch → isSpc ch = false)
    (ws1 ws2 : List Char) (h1 : ∀ ch ∈ ws1, isSpc ch = true)
    (h2 : ∀ ch ∈ ws2, isSpc ch = true) :
    trimChars (ws1 ++ x ++ ws2) = x := by
  unfold trimChars
  rw [List.append_assoc, dropWhile_spc_append ws1 h1 (x ++ ws2) ?hd]
  case hd =>
    intro ch hch
    cases x with
    | nil => exact absurd rfl hx
    | cons x0 xt =>
      simp only [List.cons_append, List.head?_cons, Option.some.injEq] at hch
      subst hch
      exact hh x0 rfl
  rw [List.reverse_append, dropWhile_spc_append ws2.reverse ?h2r x.reverse ?hr,
    List.reverse_reverse]
  case h2r =>
    intro ch hch
    exact h2 ch (by simpa using hch)
  case hr =>
    intro ch hch
    rw [List.head?_reverse] at hch
    exact hl ch hch

theorem effExpr_eq_trim (s : List Char)
    (hp : ∀ ch, (trimChars s).head? = some ch → ch ≠ '(') :
    effExpr s = trimChars s := by
  unfold effExpr
  split
  · rename_i hcond
    simp only [Bool.and_eq_true, decide_eq_true_eq] at hcond
    exact absurd rfl (hp '(' hcond.1)
  · rfl

theorem splitWordF_of_none (w : List Char) (n : ℕ) (prev : Option Char) (y : List Char)
    (h : findWord w prev y = none) : splitWordF w n prev y = [y] := by
  cases n with
  | zero => rfl
  | succ m =>
    unfold splitWordF
    rw [h]

theorem splitWord_one (w : List Char) (prev : Option Char) (s : List Char)
    (h : findWord w prev s = none) : splitWord w prev s = [s] :=
  splitWordF_of_none w _ prev s h

theorem splitWord_pair (w : List Char) (s pre post : List Char)
    (hf : findWord w none s = some (pre, post))
    (hpost : findWord w w.getLast? post = none) :
    splitWord w none s = [pre, post] := by
  unfold splitWord splitWordF
  rw [hf]
  change pre :: splitWordF w s.length w.getLast? post = [pre, post]
  rw [splitWordF_of_none w s.length w.getLast? post hpost]

theorem zipWith_and_replicate_true :
    ∀ (n : ℕ) (x : Mask), x.length = n → List.zipWith (· && ·) (List.replicate n true) x = x := by
  intro n
  induction n with
  | zero => intro x h; rw [List.length_eq_zero] at h; subst h; rfl
  | succ m ih =>
    intro x h
    cases x with
    | nil => simp at h
    | cons b bs =>
      simp only [List.replicate_succ, List.zipWith_cons_cons, Bool.true_and]
      rw [ih bs (by simpa using h)]

theorem zipWith_or_replicate_false :
    ∀ (n : ℕ) (x : Mask), x.length = n → List.zipWith (· || ·) (List.replicate n false) x = x := by
  intro n
  induction n with
  | zero => intro x h; rw [List.length_eq_zero] at h; subst h; rfl
  | succ m ih =>
    intro x h
    cases x with
    | nil => simp at h
    | cons b bs =>
      simp only [List.replicate_succ, List.zipWith_cons_cons, Bool.false_or]
      rw [ih bs (by simpa using h)]

theorem andMask_trueMask (df : Df) (x : Mask) (h : x.length = rowCount df) :
    andMask (trueMask df) x = x :=
  zipWith_and_replicate_true (rowCount df) x h

theorem orMask_falseMask (df : Df) (x : Mask) (h : x.length = rowCount df) :
    orMask (falseMask df) x = x :=
  zipWith_or_replicate_false (rowCount df) x h

end CowSel

namespace CowSel

/-! ### The composite expression A AND B OR C -/

def sAND : List Char := [' ', 'A', 'N', 'D', ' ']
def sOR : List Char := [' ', 'O', 'R', ' ']

theorem head?_append_left (x y : List Char) (hx : x ≠ []) : (x ++ y).head? = x.head? := by
  cases x with
  | nil => exact absurd rfl hx
  | cons x0 xt => rfl

theorem getLast?_append_right (x y : List Char) (hy : y ≠ []) :
    (x ++ y).getLast? = y.getLast? := by
  rw [← List.head?_reverse, ← List.head?_reverse, List.reverse_append]
  cases hyr : y.reverse with
  | nil =>
    have := congrArg List.reverse hyr
    simp at this
    exact absurd this hy
  | cons d u => rfl

theorem noMatchAlong_sAND_or (p : Option Char) (u : List Char) :
    noMatchAlong orWord p sAND u = true := by
  simp only [sAND, orWord, noMatchAlong, List.cons_append, List.nil_append, List.append_eq]
  rw [wordAt_head_ne 'O' ['R'] p ' ' _ (by decide),
    wordAt_head_ne 'O' ['R'] (some ' ') 'A' _ (by decide),
    wordAt_head_ne 'O' ['R'] (some 'A') 'N' _ (by decide),
    wordAt_head_ne 'O' ['R'] (some 'N') 'D' _ (by decide),
    wordAt_head_ne 'O' ['R'] (some 'D') ' ' _ (by decide)]
  rfl

theorem noMatchAlong_space_or (p : Option Char) (u : List Char) :
    noMatchAlong orWord p [' '] u = true := by
  simp only [orWord, noMatchAlong, List.nil_append, List.append_eq]
  rw [wordAt_head_ne 'O' ['R'] p ' ' _ (by decide)]
  rfl

theorem noMatchAlong_space_and (p : Option Char) (u : List Char) :
    noMatchAlong andWord p [' '] u = true := by
  simp only [andWord, noMatchAlong, List.nil_append, List.append_eq]
  rw [wordAt_head_ne 'A' ['N', 'D'] p ' ' _ (by decide)]
  rfl

theorem prevOk_space : prevOk (some ' ') = prevOk none := by decide

theorem spc_all_single : ∀ ch ∈ ([' '] : List Char), isSpc ch = true := by
  intro ch hch
  simp only [List.mem_singleton] at hch
  subst hch
  rfl

theorem hword_or : ∀ ch ∈ orWord, ¬(' '.toLower = ch.toLower) := by decide

theorem hword_and : ∀ ch ∈ andWord, ¬(' '.toLower = ch.toLower) := by decide

/-- No whole-word `OR` occurs anywhere in `A AND B` when `A` and `B`
are atomic. -/
theorem noMatchAlong_or_region (a b : List Char)
    (ha : atomicOK a = true) (hb : atomicOK b = true) (u : List Char)
    (hu : u = [] ∨ u.head? = some ' ') :
    noMatchAlong orWord none (a ++ sAND ++ b) u = true := by
  obtain ⟨hneA, _, _, horA, _⟩ := atomicOK_spec a ha
  obtain ⟨_, _, _, horB, _⟩ := atomicOK_spec b hb
  rw [noMatchAlong_append, noMatchAlong_append, Bool.and_eq_true, Bool.and_eq_true]
  have hbu : noMatchAlong orWord (lastPrev (a ++ sAND) none) b u = true := by
    have hlp : lastPrev (a ++ sAND) none = some ' ' := by
      unfold lastPrev
      rw [getLast?_append_right a sAND (by simp [sAND])]
      rfl
    rw [hlp, noMatchAlong_prevCongr orWord (some ' ') none b u prevOk_space]
    rcases hu with rfl | hu
    · exact horB
    · exact noMatchAlong_extend orWord u hu hword_or b none horB
  refine ⟨⟨?_, noMatchAlong_sAND_or _ _⟩, hbu⟩
  have hhead : ((sAND ++ (b ++ u))).head? = some ' ' := rfl
  exact noMatchAlong_extend orWord (sAND ++ (b ++ u)) hhead hword_or a none horA

theorem parseCondition_rowCount (df : Df) (c0 : List Char) (m : Mask) (df' : Df)
    (h : parseCondition df c0 = some (m, df')) : rowCount df' = rowCount df := by
  rcases (parseCondition_inv df c0 m df' h).2 with rfl | ⟨col, _, rfl⟩
  · rfl
  · exact rowCount_coerceCol df col

/-- Evaluating an atomic condition text, padded by whitespace, is one
call to the Condition Matcher. -/
theorem evalFilterF_atomic (n : ℕ) (df : Df) (ws1 x ws2 : List Char)
    (hx : atomicOK x = true)
    (h1 : ∀ ch ∈ ws1, isSpc ch = true) (h2 : ∀ ch ∈ ws2, isSpc ch = true)
    (hn : 0 < n) :
    evalFilterF n df (ws1 ++ x ++ ws2) = parseCondition df x := by
  obtain ⟨hne, hh, hl, hor, hand⟩ := atomicOK_spec x hx
  obtain ⟨m, rfl⟩ : ∃ m, n = m + 1 := ⟨n - 1, by omega⟩
  rw [evalFilterF_succ]
  have htrim : trimChars (ws1 ++ x ++ ws2) = x :=
    trimChars_pad x hne (fun ch hch => (hh ch hch).1) hl ws1 ws2 h1 h2
  have hp : ∀ ch, (trimChars (ws1 ++ x ++ ws2)).head? = some ch → ch ≠ '(' := by
    intro ch hch
    rw [htrim] at hch
    exact (hh ch hch).2
  have heff : effExpr (ws1 ++ x ++ ws2) = x := by
    rw [effExpr_eq_trim _ hp, htrim]
  rw [heff, splitWord_one orWord none x (findWord_of_noMatch_nil orWord none x hor),
    splitWord_one andWord none x (findWord_of_noMatch_nil andWord none x hand)]
  simp

end CowSel

namespace CowSel

/-- Evaluating `A AND B` followed by a space: the AND split fires and
the two atomic sides are matched left to right, threading the working
frame. -/
theorem evalFilterF_andPart (m : ℕ) (df : Df) (a b : List Char)
    (ha : atomicOK a = true) (hb : atomicOK b = true) (hm : 0 < m) :
    evalFilterF (m + 1) df (a ++ sAND ++ b ++ [' ']) =
      (match parseCondition df a with
       | none => none
       | some mda =>
         match parseCondition mda.2 b with
         | none => none
         | some mdb => some (andMask mda.1 mdb.1, mdb.2)) := by
  obtain ⟨hneA, hhA, hlA, horA, handA⟩ := atomicOK_spec a ha
  obtain ⟨hneB, hhB, hlB, horB, handB⟩ := atomicOK_spec b hb
  rw [evalFilterF_succ]
  have hxne : a ++ sAND ++ b ≠ [] := by
    intro hcontra
    rw [List.append_assoc, List.append_eq_nil] at hcontra
    exact hneA hcontra.1
  have hhx : ∀ ch, (a ++ sAND ++ b).head? = some ch → isSpc ch = false ∧ ch ≠ '(' := by
    intro ch hch
    rw [List.append_assoc, head?_append_left a (sAND ++ b) hneA] at hch
    exact hhA ch hch
  have hlx : ∀ ch, (a ++ sAND ++ b).getLast? = some ch → isSpc ch = false := by
    intro ch hch
    rw [getLast?_append_right (a ++ sAND) b hneB] at hch
    exact hlB ch hch
  have htrim : trimChars (a ++ sAND ++ b ++ [' ']) = a ++ sAND ++ b := by
    have h := trimChars_pad (a ++ sAND ++ b) hxne (fun ch hch => (hhx ch hch).1) hlx [] [' ']
      (by intro ch hch; simp at hch) spc_all_single
    simpa using h
  have hp : ∀ ch, (trimChars (a ++ sAND ++ b ++ [' '])).head? = some ch → ch ≠ '(' := by
    intro ch hch
    rw [htrim] at hch
    exact (hhx ch hch).2
  have heff : effExpr (a ++ sAND ++ b ++ [' ']) = a ++ sAND ++ b := by
    rw [effExpr_eq_trim _ hp, htrim]
  rw [heff]
  have hnmO : noMatchAlong orWord none (a ++ sAND ++ b) [] = true :=
    noMatchAlong_or_region a b ha hb [] (Or.inl rfl)
  rw [splitWord_one orWord none _ (findWord_of_noMatch_nil orWord none _ hnmO),
    if_neg (by simp)]
  have hnmA1 : noMatchAlong andWord none (a ++ [' ']) ('A' :: 'N' :: 'D' :: (' ' :: b)) = true := by
    rw [noMatchAlong_append, Bool.and_eq_true]
    exact ⟨noMatchAlong_extend andWord ([' '] ++ ('A' :: 'N' :: 'D' :: (' ' :: b)))
      rfl hword_and a none handA, noMatchAlong_space_and _ _⟩
  have hfA : findWord andWord none (a ++ sAND ++ b) = some (a ++ [' '], ' ' :: b) := by
    have hseq : a ++ sAND ++ b = (a ++ [' ']) ++ ('A' :: 'N' :: 'D' :: (' ' :: b)) := by
      simp [sAND]
    rw [hseq, findWord_append andWord (a ++ [' ']) none _ hnmA1]
    have hlp : lastPrev (a ++ [' ']) none = some ' ' := by
      unfold lastPrev
      rw [getLast?_append_right a [' '] (by simp)]
      rfl
    rw [hlp, show findWord andWord (some ' ') ('A' :: 'N' :: 'D' :: (' ' :: b)) =
      some ([], ' ' :: b) from rfl]
    simp
  have hpostA : findWord andWord andWord.getLast? (' ' :: b) = none := by
    show findWord andWord (some 'D') (' ' :: b) = none
    simp only [findWord]
    rw [show wordAt andWord (some 'D') (' ' :: b) = none from rfl,
      findWord_of_noMatch_nil andWord (some ' ') b (by
        rw [noMatchAlong_prevCongr andWord (some ' ') none b [] prevOk_space]
        exact handB)]
  rw [splitWord_pair andWord _ _ _ hfA hpostA, if_pos (by simp)]
  have hA : evalFilterF m df (a ++ [' ']) = parseCondition df a := by
    have h := evalFilterF_atomic m df [] a [' '] ha (by intro ch hch; simp at hch)
      spc_all_single hm
    simpa using h
  simp only [List.foldl_cons, List.foldl_nil, hA]
  cases hpa : parseCondition df a with
  | none => rfl
  | some mda =>
    have hlen : mda.1.length = rowCount df := (parseCondition_inv df a mda.1 mda.2 hpa).1
    have hB : evalFilterF m mda.2 (' ' :: b) = parseCondition mda.2 b := by
      have h := evalFilterF_atomic m mda.2 [' '] b [] hb spc_all_single
        (by intro ch hch; simp at hch) hm
      simpa using h
    simp only [hB]
    cases hpb : parseCondition mda.2 b with
    | none => rfl
    | some mdb => rw [andMask_trueMask df mda.1 hlen]

end CowSel

namespace CowSel

/-- Claim C1 (amended): OR splitting happens first, so OR is the
OUTERMOST operator and `A AND B OR C` evaluates as `(A AND B) OR C`,
with the working frame threaded left to right. -/
theorem claim_C1_amended (df : Df) (a b c : List Char)
    (ha : atomicOK a = true) (hb : atomicOK b = true) (hc : atomicOK c = true) :
    evalFilter df (a ++ sAND ++ b ++ sOR ++ c) =
      (match evalFilter df a with
       | none => none
       | some mda =>
         match evalFilter mda.2 b with
         | none => none
         | some mdb =>
           match evalFilter mdb.2 c with
           | none => none
           | some mdc => some (orMask (andMask mda.1 mdb.1) mdc.1, mdc.2)) := by
  obtain ⟨hneA, hhA, hlA, horA, handA⟩ := atomicOK_spec a ha
  obtain ⟨hneB, hhB, hlB, horB, handB⟩ := atomicOK_spec b hb
  obtain ⟨hneC, hhC, hlC, horC, handC⟩ := atomicOK_spec c hc
  have hEa : ∀ d : Df, evalFilter d a = parseCondition d a := fun d => by
    have h := evalFilterF_atomic (a.length + 1) d [] a [] ha
      (by intro ch hch; simp at hch) (by intro ch hch; simp at hch) (by omega)
    simpa [evalFilter] using h
  have hEb : ∀ d : Df, evalFilter d b = parseCondition d b := fun d => by
    have h := evalFilterF_atomic (b.length + 1) d [] b [] hb
      (by intro ch hch; simp at hch) (by intro ch hch; simp at hch) (by omega)
    simpa [evalFilter] using h
  have hEc : ∀ d : Df, evalFilter d c = parseCondition d c := fun d => by
    have h := evalFilterF_atomic (c.length + 1) d [] c [] hc
      (by intro ch hch; simp at hch) (by intro ch hch; simp at hch) (by omega)
    simpa [evalFilter] using h
  simp only [hEa, hEb, hEc]
  rw [show evalFilter df (a ++ sAND ++ b ++ sOR ++ c) =
    evalFilterF ((a ++ sAND ++ b ++ sOR ++ c).length + 1) df
      (a ++ sAND ++ b ++ sOR ++ c) from rfl]
  rw [evalFilterF_succ]
  have hx3 : a ++ sAND ≠ [] := fun h => hneA (List.append_eq_nil.mp h).1
  have hx2 : a ++ sAND ++ b ≠ [] := fun h => hneB (List.append_eq_nil.mp h).2
  have hx1 : a ++ sAND ++ b ++ sOR ≠ [] := fun h => hx2 (List.append_eq_nil.mp h).1
  have hhS : ∀ ch, (a ++ sAND ++ b ++ sOR ++ c).head? = some ch →
      isSpc ch = false ∧ ch ≠ '(' := by
    intro ch hch
    rw [head?_append_left _ c hx1, head?_append_left _ sOR hx2,
      head?_append_left _ b hx3, head?_append_left a sAND hneA] at hch
    exact hhA ch hch
  have hlS : ∀ ch, (a ++ sAND ++ b ++ sOR ++ c).getLast? = some ch →
      isSpc ch = false := by
    intro ch hch
    rw [getLast?_append_right _ c hneC] at hch
    exact hlC ch hch
  have htrim : trimChars (a ++ sAND ++ b ++ sOR ++ c) = a ++ sAND ++ b ++ sOR ++ c :=
    trimChars_eq_self _ (fun ch hch => (hhS ch hch).1) hlS
  have hpS : ∀ ch, (trimChars (a ++ sAND ++ b ++ sOR ++ c)).head? = some ch →
      ch ≠ '(' := by
    intro ch hch
    rw [htrim] at hch
    exact (hhS ch hch).2
  have heff : effExpr (a ++ sAND ++ b ++ sOR ++ c) = a ++ sAND ++ b ++ sOR ++ c := by
    rw [effExpr_eq_trim _ hpS, htrim]
  rw [heff]
  have hnm1 : noMatchAlong orWord none (a ++ sAND ++ b ++ [' '])
      ('O' :: 'R' :: (' ' :: c)) = true := by
    rw [noMatchAlong_append, Bool.and_eq_true]
    exact ⟨noMatchAlong_or_region a b ha hb ([' '] ++ ('O' :: 'R' :: (' ' :: c)))
      (Or.inr rfl), noMatchAlong_space_or _ _⟩
  have hfOR : findWord orWord none (a ++ sAND ++ b ++ sOR ++ c) =
      some (a ++ sAND ++ b ++ [' '], ' ' :: c) := by
    have hseq : a ++ sAND ++ b ++ sOR ++ c =
        (a ++ sAND ++ b ++ [' ']) ++ ('O' :: 'R' :: (' ' :: c)) := by
      simp [sOR]
    rw [hseq, findWord_append orWord (a ++ sAND ++ b ++ [' ']) none _ hnm1]
    have hlp : lastPrev (a ++ sAND ++ b ++ [' ']) none = some ' ' := by
      unfold lastPrev
      rw [getLast?_append_right _ [' '] (by simp)]
      rfl
    rw [hlp, show findWord orWord (some ' ') ('O' :: 'R' :: (' ' :: c)) =
      some ([], ' ' :: c) from rfl]
    simp
  have hpostOR : findWord orWord orWord.getLast? (' ' :: c) = none := by
    show findWord orWord (some 'R') (' ' :: c) = none
    simp only [findWord]
    rw [show wordAt orWord (some 'R') (' ' :: c) = none from rfl,
      findWord_of_noMatch_nil orWord (some ' ') c (by
        rw [noMatchAlong_prevCongr orWord (some ' ') none c [] prevOk_space]
        exact horC)]
  rw [splitWord_pair orWord _ _ _ hfOR hpostOR, if_pos (by simp)]
  have hlc : 0 < c.length := List.length_pos.mpr hneC
  have hlt : (a ++ sAND ++ b ++ [' ']).length < (a ++ sAND ++ b ++ sOR ++ c).length := by
    simp only [List.length_append, sAND, sOR, List.length_cons, List.length_nil]
    omega
  have hp1pos : 0 < (a ++ sAND ++ b ++ [' ']).length := by
    simp only [List.length_append, sAND, List.length_cons, List.length_nil]
    omega
  have hstep1 : evalFilterF (a ++ sAND ++ b ++ sOR ++ c).length df
      (a ++ sAND ++ b ++ [' ']) =
      (match parseCondition df a with
       | none => none
       | some mda =>
         match parseCondition mda.2 b with
         | none => none
         | some mdb => some (andMask mda.1 mdb.1, mdb.2)) := by
    rw [evalFilterF_fuel _ ((a ++ sAND ++ b ++ [' ']).length + 1) df _ hlt (by omega)]
    exact evalFilterF_andPart _ df a b ha hb hp1pos
  have hn0 : 0 < (a ++ sAND ++ b ++ sOR ++ c).length := by omega
  have hstep2 : ∀ d : Df, evalFilterF (a ++ sAND ++ b ++ sOR ++ c).length d (' ' :: c) =
      parseCondition d c := fun d => by
    have h := evalFilterF_atomic _ d [' '] c [] hc spc_all_single
      (by intro ch hch; simp at hch) hn0
    simpa using h
  simp only [List.foldl_cons, List.foldl_nil, hstep1]
  cases hpa : parseCondition df a with
  | none => rfl
  | some mda =>
    simp only []
    cases hpb : parseCondition mda.2 b with
    | none => rfl
    | some mdb =>
      simp only [hstep2]
      cases hpc : parseCondition mdb.2 c with
      | none => rfl
      | some mdc =>
        have h1 := (parseCondition_inv df a mda.1 mda.2 hpa).1
        have h2 := (parseCondition_inv mda.2 b mdb.1 mdb.2 hpb).1
        have h3 := parseCondition_rowCount df a mda.1 mda.2 hpa
        have hlen : (andMask mda.1 mdb.1).length = rowCount df := by
          rw [length_andMask, h1, h2, h3, min_self]
        rw [orMask_falseMask df (andMask mda.1 mdb.1) hlen]

/-- Witness for C1 (amended) at the one-row frame `x = 5` with
`A = x > 10`, `B = x > 20`, `C = x > 1`. -/
theorem claim_C1_amended_witness :
    atomicOK ("x > 10").data = true ∧ atomicOK ("x > 20").data = true ∧
    atomicOK ("x > 1").data = true ∧
    evalFilter dfW1 (("x > 10").data ++ sAND ++ ("x > 20").data ++ sOR ++ ("x > 1").data) =
      (match evalFilter dfW1 ("x > 10").data with
       | none => none
       | some mda =>
         match evalFilter mda.2 ("x > 20").data with
         | none => none
         | some mdb =>
           match evalFilter mdb.2 ("x > 1").data with
           | none => none
           | some mdc => some (orMask (andMask mda.1 mdb.1) mdc.1, mdc.2)) :=
  ⟨by decide, by decide, by decide,
    claim_C1_amended dfW1 ("x > 10").data ("x > 20").data ("x > 1").data
      (by decide) (by decide) (by decide)⟩

end CowSel
